import Mathlib

/-
  Verification development for the Behavioral-Health-Continuum ETL pipeline
  (etl/process_clean.py, etl/download.py, etl/export.py).

  The pipeline is shallowly embedded: a pandas DataFrame becomes `Table`
  (a column-name list plus a row-major list of dynamically typed cells),
  pandas/numpy cell semantics become total functions on `Cell`
  (floats are modelled as exact rationals; numpy float division by zero
  produces signed infinities, modelled by the `inf`/`ninf` constructors;
  missing values NaN/None/NaT are collapsed into the single `null`).
  Numeric string parsing follows the decimal grammar
  sign? digits ('.' digits)? plus the words inf/infinity/nan accepted by
  Python float(); scientific notation and underscore separators are outside
  the modelled grammar.
-/

set_option maxHeartbeats 1000000
set_option maxRecDepth 8000

namespace BHC

/- ===================== ASCII character helpers ====================== -/

/-- Lower-case ASCII letter test (Python str methods operate per character;
only the ASCII range is modelled). -/
def isLowerB (c : Char) : Bool := 97 ≤ c.toNat && c.toNat ≤ 122

/-- Upper-case ASCII letter test. -/
def isUpperB (c : Char) : Bool := 65 ≤ c.toNat && c.toNat ≤ 90

/-- ASCII letter test (the "cased" characters of Python str.title). -/
def isAlphaB (c : Char) : Bool := isLowerB c || isUpperB c

/-- ASCII upper-casing of one character. -/
def upChar (c : Char) : Char := if isLowerB c then Char.ofNat (c.toNat - 32) else c

/-- ASCII lower-casing of one character. -/
def loChar (c : Char) : Char := if isUpperB c then Char.ofNat (c.toNat + 32) else c

/-- Python str.title on a character list: the first letter of every
alphabetic run is upper-cased, the rest lower-cased.  The boolean is
"previous character was cased". -/
def titleAux : Bool → List Char → List Char
  | _, [] => []
  | prev, c :: cs =>
    (if isAlphaB c then (if prev then loChar c else upChar c) else c) :: titleAux (isAlphaB c) cs

/-- Python str.title. -/
def titleStr (s : String) : String := ⟨titleAux false s.data⟩

/-- Whitespace test for Python str.strip / float() argument stripping. -/
def isWsB (c : Char) : Bool := c = ' ' || c = '\t' || c = '\n' || c = '\r'

/-- Python str.strip() on a character list. -/
def trimChars (l : List Char) : List Char :=
  ((l.dropWhile isWsB).reverse.dropWhile isWsB).reverse

/-- Python str.rstrip("%") on a character list: drop every trailing percent sign. -/
def rstripPctChars (l : List Char) : List Char :=
  (l.reverse.dropWhile (fun c => c = '%')).reverse

/-- Python str.rstrip("%"). -/
def rstripPct (s : String) : String := ⟨rstripPctChars s.data⟩

/-- Python str.replace(",", ""): drop every comma. -/
def stripCommas (s : String) : String := ⟨s.data.filter (fun c => c != ',')⟩

/-- Python str.zfill(w): left-pad with zeros to width w, keeping a leading
sign in front of the padding; a string already at least w long is returned
unchanged. -/
def zfill (w : ℕ) (s : String) : String :=
  if w ≤ s.length then s
  else
    match s.data with
    | c :: cs =>
      if c = '-' ∨ c = '+' then ⟨c :: (List.replicate (w - s.length) '0' ++ cs)⟩
      else ⟨List.replicate (w - s.length) '0' ++ s.data⟩
    | [] => ⟨List.replicate w '0'⟩

/- ===================== decimal digits ====================== -/

/-- The character of a decimal digit. -/
def digitChar : ℕ → Char
  | 0 => '0' | 1 => '1' | 2 => '2' | 3 => '3' | 4 => '4'
  | 5 => '5' | 6 => '6' | 7 => '7' | 8 => '8' | _ => '9'

/-- The value of a decimal digit character. -/
def charVal (c : Char) : ℕ := c.toNat - 48

/-- Decimal digit character test. -/
def isDigitB (c : Char) : Bool := 48 ≤ c.toNat && c.toNat ≤ 57

/-- Digit expansion of a positive natural number, most significant digit
first; the first argument is recursion fuel (any bound on the number). -/
def natToCharsAux : ℕ → ℕ → List Char
  | 0, _ => []
  | _ + 1, 0 => []
  | fuel + 1, n => natToCharsAux fuel (n / 10) ++ [digitChar (n % 10)]

/-- Python str(n) for a natural number (most significant digit first). -/
def natToChars (n : ℕ) : List Char :=
  if n = 0 then ['0'] else natToCharsAux n n

/-- Python str(k) for an integer. -/
def intToStr (k : ℤ) : String :=
  if k < 0 then ⟨'-' :: natToChars k.natAbs⟩ else ⟨natToChars k.natAbs⟩

/-- Value of a most-significant-first digit string. -/
def digitsVal (l : List Char) : ℕ := l.foldl (fun a c => 10 * a + charVal c) 0

/-- Parse a non-empty unsigned digit string. -/
def parseUDigits (l : List Char) : Option ℕ :=
  if l.isEmpty then none else if l.all isDigitB then some (digitsVal l) else none

/- ===================== computable rational helpers ====================== -/

/-
  Rationals are constructed through mkRat / num / den and integer
  arithmetic throughout the executable definitions (the field operations of
  ℚ are used only in theorem statements), so that every definition
  evaluates on concrete cells inside the kernel.
-/

/-- Division of rationals, computed on numerators and denominators. -/
def ratDiv (a b : ℚ) : ℚ :=
  let n := a.num * (b.den : ℤ)
  let m := (a.den : ℤ) * b.num
  if m < 0 then mkRat (-n) m.natAbs else mkRat n m.natAbs

/-- Negation of a rational, computed on the numerator. -/
def ratNeg (q : ℚ) : ℚ := mkRat (-q.num) q.den

/-- Absolute value of a rational. -/
def ratAbs (q : ℚ) : ℚ := if q < 0 then ratNeg q else q

/-- q * 10^k, computed on the numerator. -/
def ratScale (k : ℕ) (q : ℚ) : ℚ := mkRat (q.num * (10 ^ k : ℕ)) q.den

/-- q / 10^k, computed on the denominator. -/
def ratUnscale (k : ℕ) (q : ℚ) : ℚ := mkRat q.num (q.den * 10 ^ k)

/- ===================== numeric parse results ====================== -/

/-- Result of Python float()/pandas to_numeric string parsing: NaN, signed
infinity, an integer, or a finite real (modelled as an exact rational). -/
inductive NumVal where
  | nvNan
  | nvInf
  | nvNinf
  | nvInt (n : ℤ)
  | nvReal (q : ℚ)
deriving DecidableEq

/-- Parse an unsigned decimal numeral: digits, or digits '.' digits with at
least one digit present overall. -/
def parseNumCore (l : List Char) : Option NumVal :=
  let ip := l.takeWhile isDigitB
  let rest := l.dropWhile isDigitB
  match rest with
  | [] => if ip.isEmpty then none else some (NumVal.nvInt (digitsVal ip))
  | '.' :: fp =>
    if fp.all isDigitB && !(ip.isEmpty && fp.isEmpty) then
      some (NumVal.nvReal
        (mkRat (Int.ofNat (digitsVal ip * 10 ^ fp.length + digitsVal fp)) (10 ^ fp.length)))
    else none
  | _ => none

/-- Lower-case a character list. -/
def lowerChars (l : List Char) : List Char := l.map loChar

/-- Negate a parse result (for a leading minus sign). -/
def NumVal.neg : NumVal → NumVal
  | .nvNan => .nvNan
  | .nvInf => .nvNinf
  | .nvNinf => .nvInf
  | .nvInt n => .nvInt (-n)
  | .nvReal q => .nvReal (ratNeg q)

/-- Parse a numeric string the way Python float() / pandas to_numeric do on
the modelled grammar: optional surrounding whitespace, optional sign, then
either a decimal numeral or one of the words inf/infinity/nan
(case-insensitive). -/
def parseNumChars (l0 : List Char) : Option NumVal :=
  let l := trimChars l0
  let signed : Bool × List Char :=
    match l with
    | [] => (false, [])
    | c :: rest =>
      if c = '-' then (true, rest) else if c = '+' then (false, rest) else (false, c :: rest)
  let body := lowerChars signed.2
  let res : Option NumVal :=
    if body = ['i', 'n', 'f'] ∨ body = ['i', 'n', 'f', 'i', 'n', 'i', 't', 'y'] then
      some NumVal.nvInf
    else if body = ['n', 'a', 'n'] then some NumVal.nvNan
    else parseNumCore signed.2
  match res with
  | some v => some (if signed.1 then v.neg else v)
  | none => none

/- ===================== cell values ====================== -/

/-- One dynamically typed DataFrame cell.  `null` stands for every pandas
missing value (NaN, None, NaT); `inf`/`ninf` are the IEEE infinities numpy
division can produce; finite floats are exact rationals; `date` is a parsed
calendar timestamp (midnight time component). -/
inductive Cell where
  | null
  | str (s : String)
  | int (n : ℤ)
  | real (q : ℚ)
  | inf
  | ninf
  | date (y m d : ℤ)
  | bool (b : Bool)
deriving DecidableEq

/-- Least power of ten clearing the denominator of q, searched up to 40
decimal places (binary floats always terminate; the bound is generous). -/
def decScale (q : ℚ) : Option ℕ :=
  (List.range 41).find? (fun k => (ratScale k q).den == 1)

/-- Zero-pad a digit list on the left to width w. -/
def padZeros (w : ℕ) (l : List Char) : List Char :=
  List.replicate (w - l.length) '0' ++ l

/-- Python str() of a float modelled as a rational: integral values render
with a trailing ".0", terminating decimals with their digits; rationals
with no terminating decimal expansion (never produced by float data) fall
back to a fraction rendering. -/
def ratToStr (q : ℚ) : String :=
  match decScale q with
  | some 0 => intToStr q.num ++ (".0")
  | some (k + 1) =>
    let m := (ratScale (k + 1) q).num
    let a := m.natAbs
    (if m < 0 then ("-") else ("")) ++ ⟨natToChars (a / 10 ^ (k + 1))⟩ ++ (".")
      ++ ⟨padZeros (k + 1) (natToChars (a % 10 ^ (k + 1)))⟩
  | none => intToStr q.num ++ ("/") ++ intToStr (q.den : ℤ)

/-- Python str() of a cell, as performed by pandas Series.astype(str):
NaN renders as "nan", booleans as "True"/"False", timestamps in ISO form. -/
def cellStr : Cell → String
  | .null => ("nan")
  | .str s => s
  | .int n => intToStr n
  | .real q => ratToStr q
  | .inf => ("inf")
  | .ninf => ("-inf")
  | .date y m d =>
    intToStr y ++ ("-") ++ zfill 2 (intToStr m) ++ ("-") ++ zfill 2 (intToStr d) ++ (" 00:00:00")
  | .bool b => if b then ("True") else ("False")

/-- Embed a parse result into a cell. -/
def NumVal.toCell : NumVal → Cell
  | .nvNan => Cell.null
  | .nvInf => Cell.inf
  | .nvNinf => Cell.ninf
  | .nvInt n => Cell.int n
  | .nvReal q => Cell.real q

/-- pandas pd.to_numeric(..., errors="coerce") on one cell: numeric cells
pass through, booleans become 0/1, strings are parsed (unparsable to NaN),
everything else degrades to NaN.  (Timestamp cells never reach to_numeric
in this pipeline; they are conservatively sent to null.) -/
def toNumericCell : Cell → Cell
  | .null => .null
  | .int n => .int n
  | .real q => .real q
  | .inf => .inf
  | .ninf => .ninf
  | .bool b => .int (if b then 1 else 0)
  | .date _ _ _ => .null
  | .str s =>
    match parseNumChars s.data with
    | some v => v.toCell
    | none => .null

/-- Python int(x) truncation toward zero of a numeric cell (only finite
numerics reach it in the pipeline; other cases are given a total default). -/
def truncCell : Cell → ℤ
  | .int n => n
  | .real q => Int.tdiv q.num (q.den : ℤ)
  | .bool b => if b then 1 else 0
  | _ => 0

/-- pandas .astype(str) on one cell. -/
def strCastCell (c : Cell) : Cell := Cell.str (cellStr c)

/-- The combined .astype(str).str.title() step used on county/city columns. -/
def titleCell (c : Cell) : Cell := Cell.str (titleStr (cellStr c))

/-- The .astype(str).str.zfill(5) step used on the zip_code column. -/
def zfill5StrCell (c : Cell) : Cell := Cell.str (zfill 5 (cellStr c))

/-- The pd.to_numeric(...).apply(lambda x: str(int(x)).zfill(w) if notna(x)
else None) pattern used for zip and county codes. -/
def zipNumCell (w : ℕ) (c : Cell) : Cell :=
  match toNumericCell c with
  | .null => .null
  | v => .str (zfill w (intToStr (truncCell v)))

/-- The pd.to_numeric(...).apply(lambda x: str(int(x)) if notna(x) else None)
pattern used for phone numbers. -/
def phoneCell (c : Cell) : Cell :=
  match toNumericCell c with
  | .null => .null
  | v => .str (intToStr (truncCell v))

/-- ISO "Y-M-D" date parse, with an "M/D/Y" fallback; anything else fails. -/
def parseDateChars (l0 : List Char) : Option (ℤ × ℤ × ℤ) :=
  let l := trimChars l0
  match (l.splitOn '-').map parseUDigits with
  | [some y, some m, some d] => some ((y : ℤ), (m : ℤ), (d : ℤ))
  | _ =>
    match (l.splitOn '/').map parseUDigits with
    | [some m, some d, some y] => some ((y : ℤ), (m : ℤ), (d : ℤ))
    | _ => none

/-- pandas pd.to_datetime(..., errors="coerce") on one cell: timestamps pass
through, strings are parsed (unparsable to NaT), everything else degrades to
NaT (numeric epoch interpretation is outside the modelled scope; no numeric
cell reaches this coercion in the pipeline). -/
def toDatetimeCell : Cell → Cell
  | .date y m d => .date y m d
  | .str s =>
    match parseDateChars s.data with
    | some (y, m, d) => .date y m d
    | none => .null
  | _ => .null

/-- The .dt.year accessor (the column has been through to_datetime, so cells
are timestamps or NaT). -/
def yearCell : Cell → Cell
  | .date y _ _ => .int y
  | _ => .null

/-- The .astype(str).str.rstrip("%") step of the core-set Rate column. -/
def rstripPctCell (c : Cell) : Cell := Cell.str (rstripPct (cellStr c))

/-- The .astype(str).str.replace(",", "") step of numerator/denominator
columns. -/
def stripCommasCell (c : Cell) : Cell := Cell.str (stripCommas (cellStr c))

/- ===================== numpy arithmetic on cells ====================== -/

/-- Extended real: a finite rational or a signed infinity. -/
inductive Ext where
  | fin (q : ℚ)
  | pinf
  | minf
deriving DecidableEq

/-- Numeric reading of a cell; none for null and for non-numeric cells
(object-dtype arithmetic is outside the modelled numeric regime and is
collapsed to a NaN result). -/
def cellNum : Cell → Option Ext
  | .int n => some (.fin (n : ℚ))
  | .real q => some (.fin q)
  | .inf => some .pinf
  | .ninf => some .minf
  | .bool b => some (.fin (if b then 1 else 0))
  | _ => none

/-- IEEE-754 / numpy true division on extended reals: x/0 is a signed
infinity for x ≠ 0, 0/0 is NaN, x/±inf is 0, inf/inf is NaN. -/
def extDiv : Ext → Ext → Cell
  | .fin x, .fin y =>
    if y = 0 then (if 0 < x then .inf else if x < 0 then .ninf else .null)
    else .real (ratDiv x y)
  | .fin _, .pinf => .real 0
  | .fin _, .minf => .real 0
  | .pinf, .fin y => if 0 ≤ y then .inf else .ninf
  | .minf, .fin y => if 0 ≤ y then .ninf else .inf
  | .pinf, _ => .null
  | .minf, _ => .null

/-- Elementwise pandas Series division of two cells. -/
def pdDiv (a b : Cell) : Cell :=
  match cellNum a, cellNum b with
  | some x, some y => extDiv x y
  | _, _ => .null

/-- numpy round-half-to-even of a rational to an integer, computed on the
numerator and denominator: with f = ⌊x⌋ and remainder rem = num - f*den,
the fractional part rem/den is compared against 1/2 by cross-multiplying. -/
def roundHalfEven (x : ℚ) : ℤ :=
  let d : ℤ := (x.den : ℤ)
  let f : ℤ := Int.fdiv x.num d
  let rem : ℤ := x.num - f * d
  if 2 * rem < d then f
  else if d < 2 * rem then f + 1
  else if f % 2 = 0 then f else f + 1

/-- pandas Series.round(k) on one cell: finite floats are rounded half to
even at k decimal places, infinities and NaN pass through, integer cells
are unchanged; non-numeric cells (which would raise in pandas and never
occur here) degrade to null. -/
def roundCell (k : ℕ) : Cell → Cell
  | .real q => .real (mkRat (roundHalfEven (ratScale k q)) (10 ^ k))
  | .int n => .int n
  | .inf => .inf
  | .ninf => .ninf
  | .null => .null
  | _ => .null

/-- Elementwise pandas comparison cell > x: NaN compares false, +inf true
(non-numeric cells would raise in pandas and are modelled false). -/
def cellGt (c : Cell) (x : ℚ) : Bool :=
  match c with
  | .int n => decide (x < (n : ℚ))
  | .real q => decide (x < q)
  | .inf => true
  | .bool b => decide (x < (if b then 1 else 0 : ℚ))
  | _ => false

/-- The parse_percentage closure of process_all (foster-care dataset):
missing values stay missing, numeric values are returned unchanged
(isinstance(val, (int, float)), which includes booleans and infinities),
strings are stripped, trailing percent signs removed, parsed as a float and
divided by 100; parse failures give None. -/
def parse_percentage : Cell → Cell
  | .null => .null
  | .int n => .int n
  | .real q => .real q
  | .inf => .inf
  | .ninf => .ninf
  | .bool b => .bool b
  | .date _ _ _ => .null
  | .str s =>
    match parseNumChars (rstripPctChars (trimChars s.data)) with
    | some (NumVal.nvInt n) => .real (mkRat n 100)
    | some (NumVal.nvReal q) => .real (ratUnscale 2 q)
    | some NumVal.nvInf => .inf
    | some NumVal.nvNinf => .ninf
    | some NumVal.nvNan => .null
    | none => .null

/-- The lambda x: abs(x) > 0.05 if pd.notna(x) else False flag of the
foster-care dataset (cells have been through parse_percentage, so the
string case never arises and is modelled false). -/
def notableFlag : Cell → Bool
  | .real q => decide (mkRat 1 20 < ratAbs q)
  | .int n => decide (mkRat 1 20 < ratAbs ((n : ℤ) : ℚ))
  | .inf => true
  | .ninf => true
  | .bool b => b
  | _ => false

/- ===================== tables ====================== -/

/-- A DataFrame: an ordered list of column names and row-major cells.
Rows are kept in order; a fresh load has the default integer index, so row
position doubles as the pandas index label. -/
structure Table where
  cols : List String
  rows : List (List Cell)
deriving DecidableEq

/-- Rectangularity: every row has exactly one cell per column (always true
of a pandas DataFrame). -/
def Table.WF (t : Table) : Prop := ∀ r ∈ t.rows, r.length = t.cols.length

instance (t : Table) : Decidable t.WF := List.decidableBAll _ _

/-- The empty placeholder DataFrame pd.DataFrame(). -/
def emptyTable : Table := ⟨[], []⟩

/-- Cell of row r in the column named c (null when the column is absent). -/
def rowCell (t : Table) (r : List Cell) (c : String) : Cell :=
  r.getD (t.cols.indexOf c) Cell.null

/-- The cells of column c, in row order. -/
def getColCells (t : Table) (c : String) : List Cell :=
  t.rows.map (fun r => rowCell t r c)

/-- The df[c] = df[c].apply(f)-style columnwise update: a no-op when the
column is absent (every such statement in process_all is guarded by
presence, with the same result). -/
def mapCol (c : String) (f : Cell → Cell) (t : Table) : Table :=
  if c ∈ t.cols then
    { cols := t.cols, rows := t.rows.map (fun r => r.set (t.cols.indexOf c) (f (rowCell t r c))) }
  else t

/-- Pad a row with nulls to n cells (identity on rectangular tables). -/
def padTo (n : ℕ) (r : List Cell) : List Cell :=
  r ++ List.replicate (n - r.length) Cell.null

/-- The cells of the deps columns of one row, in order. -/
def rowVals (t : Table) (deps : List String) (r : List Cell) : List Cell :=
  deps.map (fun d => rowCell t r d)

/-- The df[c] = g(df[d1], df[d2], ...) derived-column assignment, guarded by
presence of the reqs columns: overwrites column c in place when it exists,
otherwise appends it on the right (pandas assignment semantics). -/
def deriveCol (reqs : List String) (c : String) (deps : List String)
    (g : List Cell → Cell) (t : Table) : Table :=
  if reqs.all (fun d => decide (d ∈ t.cols)) then
    if c ∈ t.cols then
      { cols := t.cols,
        rows := t.rows.map (fun r => r.set (t.cols.indexOf c) (g (rowVals t deps r))) }
    else
      { cols := t.cols ++ [c],
        rows := t.rows.map (fun r => padTo t.cols.length r ++ [g (rowVals t deps r)]) }
  else t

/- ===================== normalizer (process_all cleaning rules) ====================== -/

def colCounty : String := "county"
def colCountyName : String := "CountyName"
def colZipCode : String := "zip_code"
def colFacilityZip : String := "Facility_Zip"
def colZIP : String := "ZIP"
def colLatitude : String := "Latitude"
def colLongitude : String := "Longitude"
def colCountyCap : String := "County"
def colCity : String := "City"
def colZip4 : String := "ZIP_4"
def colPhone : String := "Phone_Number"
def colEnrollDT : String := "Enroll_Status_Eff_DT"
def colLabel : String := "Label"
def colValue : String := "Value"
def colMeasureNumber : String := "Measure number"
def colNumerator : String := "Most recent numerator"
def colDenominator : String := "Most recent denominator"
def colPerformance : String := "Most recent performance"
def colCountyCode : String := "County_Code"
def colExpirationDate : String := "Expiration_Date"
def colFacilityCity : String := "Facility_City"
def colTreatmentCap : String := "Treatment_Capacity"
def colTotalCap : String := "Total_Capacity"
def colCapUtil : String := "Capacity_Utilization"
def colExpirationYear : String := "Expiration_Year"
def colLargeFacility : String := "Large_Facility"
def colRate : String := "Rate"
def colPctChange : String := "One-year percent change"
def colChangeFlag : String := "OneYearChangeFlag"
def colNumeratorCS : String := "Numerator"
def colDenominatorCS : String := "Denominator"
def colMembers : String := "members"
def colYear : String := "Year"

def keyFfs : String := "ffs_providers_profile"
def keyAcs : String := "acs_5yr_estimates"
def keyFoster : String := "foster_care_entries_exits"
def keySud : String := "sud_recovery_facilities"
def keySudGeo : String := "sud_recovery_facilities_geojson"
def keyCoreSet : String := "core_set_mental_health"
def keyMatAnnual : String := "mat_annual"
def keyMatQuarterly : String := "mat_quarterly"

/-- The dataset-independent cleaning rules of process_all (each guarded on
column presence): title-cased county names, zero-padded zip codes, numeric
coordinates. -/
def genericSteps (t : Table) : Table :=
  t |> mapCol colCounty titleCell
    |> mapCol colCountyName titleCell
    |> mapCol colZipCode zfill5StrCell
    |> mapCol colFacilityZip (zipNumCell 5)
    |> mapCol colZIP (zipNumCell 5)
    |> mapCol colLatitude toNumericCell
    |> mapCol colLongitude toNumericCell

/-- The ffs_providers_profile branch of process_all. -/
def ffsSteps (t : Table) : Table :=
  t |> mapCol colCountyCap titleCell
    |> mapCol colCountyName titleCell
    |> mapCol colCity titleCell
    |> mapCol colZip4 (zipNumCell 4)
    |> mapCol colPhone phoneCell
    |> mapCol colEnrollDT toDatetimeCell

/-- Python str(value).split(",")[0].strip() applied to a column header. -/
def countyFromHeader (s : String) : String :=
  ⟨trimChars (s.data.takeWhile (fun c => c != ','))⟩

/-- The acs_5yr_estimates branch of process_all: relabel the first two
columns to Label/Value (rename applies dict semantics, later key winning on
a collision), strip thousands separators from Value and parse it, extract
the county name embedded in the original Value header before the first
comma into a new County column, and drop rows with no Label. -/
def acsSteps (t : Table) : Table :=
  if 2 ≤ t.cols.length then
    let labelCol := t.cols.getD 0 ("")
    let valueCol := t.cols.getD 1 ("")
    let countyName := countyFromHeader valueCol
    let t1 : Table :=
      { cols := t.cols.map (fun c => if c = valueCol then colValue else if c = labelCol then colLabel else c),
        rows := t.rows }
    let t2 := mapCol colValue stripCommasCell (mapCol colValue strCastCell t1)
    let t3 := mapCol colValue toNumericCell t2
    let t4 := deriveCol [] colCountyCap [] (fun _ => Cell.str countyName) t3
    { cols := t4.cols,
      rows := t4.rows.filter (fun r => rowCell t4 r colLabel != Cell.null) }
  else t

/-- Character-list prefix test. -/
def startsWithChars : List Char → List Char → Bool
  | [], _ => true
  | _ :: _, [] => false
  | a :: as, b :: bs => a = b && startsWithChars as bs

/-- Character-list substring test. -/
def containsSub (needle : List Char) : List Char → Bool
  | [] => needle.isEmpty
  | c :: tl => startsWithChars needle (c :: tl) || containsSub needle tl

/-- Case-insensitive substring test (pandas .str.contains(..., case=False)). -/
def containsCI (s : String) (needle : List Char) : Bool :=
  containsSub (lowerChars needle) (lowerChars s.data)

/-- True when some cell of the row, cast to str, contains the text
"Measure number" case-insensitively (row.astype(str).str.contains(...)). -/
def rowHasMarker (r : List Cell) : Bool :=
  r.any (fun c => containsCI (cellStr c) colMeasureNumber.data)

/-- Column-name reading of a promoted header cell (df.columns entries are
the raw row values; the claims only exercise string cells, whose name is the
string itself, and the remaining cases take their str() rendering). -/
def colNameOf (c : Cell) : String :=
  match c with
  | .str s => s
  | c => cellStr c

/-- The foster_care_entries_exits header-detection step of process_all
(lines 388-397): when "Measure number" is not among the column names, scan
the rows in order for the first one containing the marker text, promote that
row to column names and drop it and everything above it; when no such row
exists the table is left as loaded. -/
def fosterHeader (t : Table) : Table :=
  if colMeasureNumber ∈ t.cols then t
  else
    match t.rows.findIdx? rowHasMarker with
    | some i => { cols := (t.rows.getD i []).map colNameOf, rows := t.rows.drop (i + 1) }
    | none => t

/-- The numeric coercions of the foster_care_entries_exits branch. -/
def fosterNumerics (t : Table) : Table :=
  t |> mapCol colNumerator toNumericCell
    |> mapCol colDenominator toNumericCell
    |> mapCol colPerformance toNumericCell

/-- The branch shared by both sud_recovery_facilities datasets. -/
def sudCommon (t : Table) : Table :=
  t |> mapCol colCountyCode (zipNumCell 2)
    |> mapCol colExpirationDate toDatetimeCell
    |> mapCol colFacilityCity titleCell
    |> mapCol colCountyName titleCell

/-- The capacity-utilization builder: Treatment_Capacity / Total_Capacity
rounded to two decimals. -/
def sudG1 : List Cell → Cell :=
  fun l => roundCell 2 (pdDiv (l.getD 0 Cell.null) (l.getD 1 Cell.null))

/-- The expiration-year builder. -/
def sudG2 : List Cell → Cell := fun l => yearCell (l.getD 0 Cell.null)

/-- The large-facility builder: Total_Capacity > 50. -/
def sudG3 : List Cell → Cell := fun l => Cell.bool (cellGt (l.getD 0 Cell.null) 50)

/-- The derived columns of sud_recovery_facilities: the capacity-utilization
ratio rounded to 2 decimals, the expiration year, and the large-facility
flag Total_Capacity > 50. -/
def sudDerive (t : Table) : Table :=
  t |> deriveCol [colTreatmentCap, colTotalCap] colCapUtil [colTreatmentCap, colTotalCap] sudG1
    |> deriveCol [colExpirationDate] colExpirationYear [colExpirationDate] sudG2
    |> deriveCol [colTotalCap] colLargeFacility [colTotalCap] sudG3

/-- The rate builder: numerator / denominator rounded to four decimals. -/
def fosterG1 : List Cell → Cell :=
  fun l => roundCell 4 (pdDiv (l.getD 0 Cell.null) (l.getD 1 Cell.null))

/-- The notable-change flag builder. -/
def fosterG3 : List Cell → Cell := fun l => Cell.bool (notableFlag (l.getD 0 Cell.null))

/-- The derived columns of foster_care_entries_exits: the numerator/
denominator rate rounded to 4 decimals, percent-change parsing, and the
notable-change flag. -/
def fosterDerive (t : Table) : Table :=
  t |> deriveCol [colNumerator, colDenominator] colRate [colNumerator, colDenominator] fosterG1
    |> mapCol colPctChange parse_percentage
    |> deriveCol [colPctChange] colChangeFlag [colPctChange] fosterG3

/-- The core_set_mental_health branch: strip percent signs from Rate and
thousands separators from Numerator/Denominator, leaving cleaned text. -/
def coreSetSteps (t : Table) : Table :=
  t |> mapCol colRate rstripPctCell
    |> mapCol colNumeratorCS stripCommasCell
    |> mapCol colDenominatorCS stripCommasCell

/-- The mat_annual / mat_quarterly branch: numeric member counts (suppressed
values coerce to NaN) and a string Year. -/
def matSteps (t : Table) : Table :=
  t |> mapCol colMembers toNumericCell
    |> mapCol colYear strCastCell

/-- The per-dataset cleaning portion of process_all (everything before the
schema-validation call), for one dataset key. -/
def normalize (key : String) (t : Table) : Table :=
  let t := genericSteps t
  let t := if key = keyFfs then ffsSteps t else t
  let t := if key = keyAcs then acsSteps t else t
  let t := if key = keyFoster then fosterNumerics (fosterHeader t) else t
  let t := if key = keySud ∨ key = keySudGeo then sudCommon t else t
  let t := if key = keySud then sudDerive t else t
  let t := if key = keyFoster then fosterDerive t else t
  let t := if key = keyCoreSet then coreSetSteps t else t
  let t := if key = keyMatAnnual ∨ key = keyMatQuarterly then matSteps t else t
  t

/- ===================== schema registry (_schemas) ====================== -/

/-- Declared logical column types of the pandera schemas (str, int, float).
Every Column declaration in _schemas carries nullable=True, so nullability
is not separately recorded. -/
inductive LType where
  | text
  | integer
  | realT
deriving DecidableEq

/-- A pandera DataFrameSchema with coerce=True: recognized columns and
their declared types (column presence is not required). -/
abbrev Schema := List (String × LType)

/-- The static schema registry of _schemas(), one entry per dataset key. -/
def schemaRegistry : List (String × Schema) :=
  [ ("behavioral_health_performance", [("county", LType.text)]),
    ("mhs_dashboard_adult", [("county", LType.text)]),
    ("mhs_dashboard_youth", [("county", LType.text)]),
    ("katie_a_specialty_mh", [("county", LType.text)]),
    ("mat_opioid_use_disorder", [("county", LType.text)]),
    ("narcotic_treatment_programs", [("county", LType.text)]),
    ("dui_provider_directory", [("county", LType.text)]),
    ("lanterman_petris_short", [("county", LType.text)]),
    ("crisis_service_utilization", [("county", LType.text)]),
    ("managed_care_enrollment", [("county", LType.text)]),
    ("certified_eligible_by_zip_sex", [("zip_code", LType.text)]),
    ("annual_renewals_by_county", [("county", LType.text)]),
    ("former_foster_youth_enrolled", [("county", LType.text)]),
    ("eligible_under_21", [("county", LType.text)]),
    ("abgar_grievances",
      [("Report Year", LType.text), ("Geography", LType.text),
       ("Grievance Category", LType.text), ("Grievance Type", LType.text),
       ("Grievance Count", LType.realT), ("Exempt Grievance Count", LType.realT),
       ("Unresolved as of June 30", LType.realT), ("Resolved", LType.realT),
       ("Referred", LType.realT)]),
    ("abgar_appeals",
      [("Report Year", LType.text), ("Geography", LType.text),
       ("Notice of Adverse Benefit Determination Category", LType.text),
       ("Appeal Count", LType.realT), ("Unresolved as of June 30", LType.realT),
       ("Decision Upheld", LType.realT), ("Decision Overturned", LType.realT)]),
    ("abgar_expedited_appeals",
      [("Report Year", LType.text), ("Geography", LType.text),
       ("Notice of Adverse Benefit Determination Category", LType.text),
       ("Expedited Appeal Count", LType.realT), ("Unresolved as of June 30", LType.realT),
       ("Decision Upheld", LType.realT), ("Decision Overturned", LType.realT)]),
    ("abgar_noabd",
      [("Report Year", LType.text), ("Geography", LType.text),
       ("Notice of Adverse Benefit Determination (NOABD) Category", LType.text),
       ("Notice of Adverse Benefit Determination (NOABD) Issued", LType.realT)]),
    ("adult_depression_lghc",
      [("Year", LType.text), ("Strata", LType.text), ("Strata Name", LType.text),
       ("Frequency", LType.realT), ("Weighted Frequency", LType.realT),
       ("Percent", LType.realT), ("Lower 95% CL", LType.realT),
       ("Upper 95% CL", LType.realT)]),
    ("core_set_mental_health",
      [("Measure_Year", LType.text), ("Type", LType.text), ("Measure", LType.text),
       ("Category", LType.text), ("Population", LType.text), ("Numerator", LType.text),
       ("Numerator_ANNOT", LType.text), ("Denominator", LType.text),
       ("Denominator_ANNOT", LType.text), ("Rate", LType.text), ("Rate_ANNOT", LType.text)]),
    ("mat_annual",
      [("County", LType.text), ("Year", LType.text),
       ("Medication_Assisted_Treatment", LType.text), ("members", LType.text),
       ("status", LType.text), ("annotation", LType.text),
       ("annotation_description", LType.text)]),
    ("mat_quarterly",
      [("County", LType.text), ("Year", LType.text), ("Quarter", LType.text),
       ("Medication_Assisted_Treatment", LType.text), ("members", LType.text),
       ("status", LType.text), ("annotation", LType.text),
       ("annotation_description", LType.text)]),
    ("ffs_providers_profile",
      [("OBJECTID", LType.integer), ("Provider_Source", LType.text),
       ("Provider_Number", LType.text), ("NPI", LType.text), ("Owner_Number", LType.text),
       ("Service_Location_Number", LType.text), ("Legal_Name", LType.text),
       ("Enroll_Status_Eff_DT", LType.text), ("Provider_Taxonomy", LType.text),
       ("NEMT_NMT_Provider_Type", LType.text), ("ANC_Provider_Type", LType.text),
       ("FI_Provider_Type_CD", LType.text), ("FI_Provider_Type", LType.text),
       ("Provider_License", LType.text), ("FI_Provider_Specialty_CD", LType.text),
       ("FI_Provider_Specialty", LType.text), ("Out_of_State_Indicator", LType.text),
       ("In_Out_State", LType.text), ("Address_Attention", LType.text),
       ("Address", LType.text), ("Address2", LType.text), ("City", LType.text),
       ("State", LType.text), ("ZIP", LType.text), ("ZIP_4", LType.text),
       ("DHCS_County_CD", LType.text), ("FIPS_County_CD", LType.text),
       ("County", LType.text), ("Phone_Number", LType.text),
       ("Medicaid_Patients", LType.text), ("CHIP_Patients", LType.text),
       ("Telehealth_Services", LType.text), ("Provider_Website", LType.text),
       ("Threshold_Languages", LType.text), ("Other_Languages", LType.text),
       ("Acc_Exam_Room", LType.text), ("Acc_Exterior_Building", LType.text),
       ("Acc_Interior_Building", LType.text), ("Acc_Parking", LType.text),
       ("Acc_Restroom", LType.text), ("Acc_Medical_Equipment", LType.text),
       ("Acc_Patient_Areas", LType.text), ("Acc_Patient_Diagnostic", LType.text),
       ("Latitude", LType.realT), ("Longitude", LType.realT),
       ("CountyName", LType.text)]),
    ("acs_5yr_estimates",
      [("Label", LType.text), ("Value", LType.realT), ("County", LType.text)]),
    ("sud_recovery_facilities",
      [("OBJECTID", LType.integer), ("County_Code", LType.text),
       ("Legal_Entity_Name", LType.text), ("Facility_Name", LType.text),
       ("Facility_City", LType.text), ("Facility_State", LType.text),
       ("Facility_Zip", LType.text), ("Type_of_Application", LType.text),
       ("Program_Code", LType.text), ("Treatment_Capacity", LType.integer),
       ("Total_Capacity", LType.integer), ("Expiration_Date", LType.text),
       ("Target_Population", LType.text), ("Incident_Medical_Services", LType.text),
       ("Adolescent_Waiver", LType.text), ("Latitude", LType.realT),
       ("Longitude", LType.realT), ("CountyName", LType.text)]),
    ("sud_recovery_facilities_geojson",
      [("OBJECTID", LType.integer), ("County_Code", LType.text),
       ("Legal_Entity_Name", LType.text), ("Facility_Name", LType.text),
       ("Facility_City", LType.text), ("Facility_State", LType.text),
       ("Facility_Zip", LType.text), ("Type_of_Application", LType.text),
       ("Program_Code", LType.text), ("Treatment_Capacity", LType.integer),
       ("Total_Capacity", LType.integer), ("Expiration_Date", LType.text),
       ("Target_Population", LType.text), ("Incident_Medical_Services", LType.text),
       ("Adolescent_Waiver", LType.text), ("Latitude", LType.realT),
       ("Longitude", LType.realT), ("CountyName", LType.text)]),
    ("foster_care_entries_exits",
      [("Measure number", LType.text), ("Measure description", LType.text),
       ("Most recent start date", LType.text), ("Most recent end date", LType.text),
       ("Most recent numerator", LType.realT), ("Most recent denominator", LType.realT),
       ("Most recent performance", LType.realT),
       ("National performance or goal", LType.text), ("Desired direction", LType.text),
       ("Actual \none-year direction", LType.text),
       ("One-year percent change", LType.realT),
       ("External Links to CCWIP Online Reports", LType.text)]),
    ("nsduh", []),
    ("cigarette_use_prevalence",
      [("YEAR", LType.integer), ("COMPARISON", LType.text), ("GENDER", LType.text),
       ("PERCENT", LType.realT), ("LOWER95", LType.realT), ("UPPER95", LType.realT)]),
    ("tobacco_use_prevalence",
      [("YEAR", LType.integer), ("DEMOGRAPHIC", LType.text), ("PERCENT", LType.text),
       ("SE", LType.text), ("LOWER95", LType.text), ("UPPER95", LType.text)]),
    ("lanterman_petris_short_data",
      [("RPT_YEAR", LType.integer), ("COUNTY", LType.text), ("CATEGORY", LType.text),
       ("AMOUNT_TYPE", LType.text), ("AMOUNT_DESC", LType.text),
       ("AMOUNT", LType.realT), ("AMOUNT_ANNOT", LType.text)]),
    ("crisis_service_utilization_ocw",
      [("Health Care Delivery System", LType.text),
       ("Health Care Delivery System Id", LType.text), ("Fiscal Year", LType.integer),
       ("Demographic Group", LType.text), ("MH Service Description", LType.text),
       ("Units", LType.text), ("Amount MH Service Received", LType.realT),
       ("Amount MH Service Received Suppression Identifier", LType.text),
       ("Medi-Cal Delivery System", LType.text), ("Population Category", LType.text),
       ("Demographic Category", LType.text)]),
    ("managed_care_enrollment_report",
      [("Enrollment Month", LType.text), ("Plan Type", LType.text),
       ("County", LType.text), ("Plan Name", LType.text),
       (" Count of Enrollees ", LType.realT),
       ("Count of Enrollees Annotation Code", LType.text),
       ("Count of Enrollees Annotation Description", LType.text)]),
    ("nsumhss_2024", []) ]

/- ===================== schema validator ====================== -/

/-- pandera type coercion (Series.astype) of one cell under coerce=True:
none means the coercion raises for that cell.  Strings must parse to cast
numerically; casting NaN to int64 is impossible; the str target applies
str() to non-missing cells. -/
def coerceCell : LType → Cell → Option Cell
  | LType.text, Cell.null => some Cell.null
  | LType.text, c => some (Cell.str (cellStr c))
  | LType.integer, Cell.int n => some (Cell.int n)
  | LType.integer, Cell.real q => some (Cell.int (truncCell (Cell.real q)))
  | LType.integer, Cell.bool b => some (Cell.int (if b then 1 else 0))
  | LType.integer, Cell.str s =>
    match parseNumChars s.data with
    | some (NumVal.nvInt n) => some (Cell.int n)
    | _ => none
  | LType.integer, _ => none
  | LType.realT, Cell.null => some Cell.null
  | LType.realT, Cell.int n => some (Cell.real (n : ℚ))
  | LType.realT, Cell.real q => some (Cell.real q)
  | LType.realT, Cell.inf => some Cell.inf
  | LType.realT, Cell.ninf => some Cell.ninf
  | LType.realT, Cell.bool b => some (Cell.real (if b then 1 else 0))
  | LType.realT, Cell.str s =>
    match parseNumChars s.data with
    | some v =>
      match v.toCell with
      | Cell.int n => some (Cell.real (n : ℚ))
      | c => some c
    | none => none
  | LType.realT, Cell.date _ _ _ => none

/-- The aggregated failure cases pandera collects under lazy=True: one
(column name, row index) pair per cell whose coercion raises, across all
declared columns present in the table. -/
def schemaViolations (sch : Schema) (t : Table) : List (String × ℕ) :=
  sch.foldr
    (fun p acc =>
      if p.1 ∈ t.cols then
        (t.rows.enum.filterMap
          (fun ir => if coerceCell p.2 (rowCell t ir.2 p.1) = none then some (p.1, ir.1) else none))
        ++ acc
      else acc)
    []

/-- The fully coerced table (meaningful when no coercion fails). -/
def coerceTable (sch : Schema) (t : Table) : Table :=
  sch.foldl (fun u p => mapCol p.1 (fun c => (coerceCell p.2 c).getD c) u) t

/-- The schema-validation call of process_all: validation runs only for
keys in the registry and non-empty tables; when pandera raises SchemaErrors
(some cell fails coercion) the exception is caught and logged, so the table
flows on UNCHANGED and the logged failure cases are returned as the second
component; on success the coerced table is returned with no failures. -/
def validateStep (key : String) (t : Table) : Table × List (String × ℕ) :=
  match schemaRegistry.lookup key with
  | none => (t, [])
  | some sch =>
    if 0 < t.rows.length then
      let vs := schemaViolations sch t
      if vs.isEmpty then (coerceTable sch t, []) else (t, vs)
    else (t, [])

/- ===================== geographic filter (_filter_by_county) ====================== -/

/-- The dataset-key → (county column, acceptable values) map of
_filter_by_county. -/
def county_filters : List (String × String × List String) :=
  [ ("ffs_providers_profile", ("County", ["Calaveras"])),
    ("acs_5yr_estimates", ("County", ["Calaveras", "Calaveras County"])),
    ("sud_recovery_facilities", ("CountyName", ["Calaveras"])),
    ("sud_recovery_facilities_geojson", ("CountyName", ["Calaveras"])),
    ("abgar_grievances", ("Geography", ["Calaveras", "State"])),
    ("abgar_appeals", ("Geography", ["Calaveras", "State"])),
    ("abgar_expedited_appeals", ("Geography", ["Calaveras", "State"])),
    ("abgar_noabd", ("Geography", ["Calaveras", "State"])),
    ("mat_annual", ("County", ["Calaveras", "Statewide"])),
    ("mat_quarterly", ("County", ["Calaveras", "Statewide"])) ]

/-- Membership of a cell in the acceptable-value string list
(Series.isin: only an equal string matches; null and numerics do not). -/
def cellAccepted (accept : List String) (c : Cell) : Bool :=
  match c with
  | Cell.str s => decide (s ∈ accept)
  | _ => false

/-- The _filter_by_county function: empty tables and datasets without a
filter spec pass through; a missing county column passes through with a
warning; otherwise exactly the rows whose county value is acceptable are
kept, in their original order. -/
def filter_by_county (df : Table) (dataset_key : String) : Table :=
  if df.rows.length = 0 then df
  else
    match county_filters.lookup dataset_key with
    | none => df
    | some (county_col, acceptable_values) =>
      if county_col ∈ df.cols then
        { cols := df.cols,
          rows := df.rows.filter (fun r => cellAccepted acceptable_values (rowCell df r county_col)) }
      else df

/-- One dataset's full pipeline pass in process_all: cleaning rules, then
schema validation, then the county filter; the second component is the
validation failure-case report. -/
def processOne (key : String) (t : Table) : Table × List (String × ℕ) :=
  let n := normalize key t
  let v := validateStep key n
  (filter_by_county v.1 key, v.2)

/- ===================== loader (download.py) ====================== -/

/-- The load_data function of download.py, abstracted over the local
filesystem: fexists tells whether a local path exists, fparse gives the
decoded table of an existing readable file (none for any decode failure,
which load_data catches and turns into None).  manual:/restricted: sentinels
and http(s) URLs return None up front — by design no network fetch is ever
attempted — and a missing local file returns None. -/
def load_data (fexists : String → Bool) (fparse : String → Option Table)
    (source : String) : Option Table :=
  if startsWithChars ("manual:").data source.data
      || startsWithChars ("restricted:").data source.data then none
  else if startsWithChars ("http://").data source.data
      || startsWithChars ("https://").data source.data then none
  else if fexists source then fparse source
  else none

/-- The load_all function: every dataset is loaded independently and a
failed load is replaced by the empty placeholder DataFrame. -/
def load_all (fexists : String → Bool) (fparse : String → Option Table)
    (sources : List (String × String)) : List (String × Table) :=
  sources.map (fun p =>
    (p.1, match load_data fexists fparse p.2 with
          | some df => df
          | none => emptyTable))

/-- A full pipeline run over a source registry: load, then process each
dataset independently. -/
def runPipeline (fexists : String → Bool) (fparse : String → Option Table)
    (sources : List (String × String)) : List (String × (Table × List (String × ℕ))) :=
  (load_all fexists fparse sources).map (fun p => (p.1, processOne p.1 p.2))

/- ===================== exporters (export.py) ====================== -/

/-- The file names written by export_to_csv: one {key}.csv per dataset,
restricted to the non-empty ones (empty datasets are filtered out before
the loop). -/
def export_to_csv_files (dfs : List (String × Table)) : List String :=
  (dfs.filter (fun p => decide (0 < p.2.rows.length))).map (fun p => p.1 ++ (".csv"))

/-- The file names written by export_to_parquet (non-empty datasets only). -/
def export_to_parquet_files (dfs : List (String × Table)) : List String :=
  (dfs.filter (fun p => decide (0 < p.2.rows.length))).map (fun p => p.1 ++ (".parquet"))

/-- The table names written by export_to_sqlite (non-empty datasets only). -/
def export_to_sqlite_tables (dfs : List (String × Table)) : List String :=
  (dfs.filter (fun p => decide (0 < p.2.rows.length))).map (fun p => p.1)

/-- The sheet names written by export_to_excel: non-empty datasets only,
names truncated to the 31-character sheet-name limit. -/
def export_to_excel_sheets (dfs : List (String × Table)) : List String :=
  (dfs.filter (fun p => decide (0 < p.2.rows.length))).map (fun p => ⟨p.1.data.take 31⟩)



/-- The per-character transform of titleAux. -/
def titleTf (prev : Bool) (c : Char) : Char :=
  if isAlphaB c then (cond prev (loChar c) (upChar c)) else c

/-- Presence of all required columns (the deriveCol guard as a Prop). -/
def reqsOk (reqs : List String) (t : Table) : Prop := ∀ d ∈ reqs, d ∈ t.cols

/-- The deps-column values of every row, in row order. -/
def depCells (t : Table) (deps : List String) : List (List Cell) :=
  t.rows.map (fun r => rowVals t deps r)

/-- One columnwise cleaning step: a target column and a cell transform. -/
structure MOp where
  c : String
  f : Cell → Cell

/-- Apply a sequence of columnwise steps left to right. -/
def applyMOps (L : List MOp) (t : Table) : Table :=
  L.foldl (fun u o => mapCol o.c o.f u) t

/-- Key consistency: every step of L that writes column c uses transform f. -/
def keyConsistent (L : List MOp) (c : String) (f : Cell → Cell) : Prop :=
  ∀ o ∈ L, o.c = c → o.f = f

/- ----- the concrete op lists of the normalizer ----- -/

/-- The generic steps as an op list. -/
def genericOps : List MOp :=
  [⟨colCounty, titleCell⟩, ⟨colCountyName, titleCell⟩, ⟨colZipCode, zfill5StrCell⟩,
   ⟨colFacilityZip, zipNumCell 5⟩, ⟨colZIP, zipNumCell 5⟩, ⟨colLatitude, toNumericCell⟩,
   ⟨colLongitude, toNumericCell⟩]

/-- The ffs branch as an op list. -/
def ffsOps : List MOp :=
  [⟨colCountyCap, titleCell⟩, ⟨colCountyName, titleCell⟩, ⟨colCity, titleCell⟩,
   ⟨colZip4, zipNumCell 4⟩, ⟨colPhone, phoneCell⟩, ⟨colEnrollDT, toDatetimeCell⟩]

/-- The shared sud branch as an op list. -/
def sudCommonOps : List MOp :=
  [⟨colCountyCode, zipNumCell 2⟩, ⟨colExpirationDate, toDatetimeCell⟩,
   ⟨colFacilityCity, titleCell⟩, ⟨colCountyName, titleCell⟩]

/-- The core-set branch as an op list. -/
def coreOps : List MOp :=
  [⟨colRate, rstripPctCell⟩, ⟨colNumeratorCS, stripCommasCell⟩,
   ⟨colDenominatorCS, stripCommasCell⟩]

/-- The mat branch as an op list. -/
def matOps : List MOp :=
  [⟨colMembers, toNumericCell⟩, ⟨colYear, strCastCell⟩]

/-- The foster numeric coercions as an op list. -/
def fosterNumOps : List MOp :=
  [⟨colNumerator, toNumericCell⟩, ⟨colDenominator, toNumericCell⟩,
   ⟨colPerformance, toNumericCell⟩]


/- ===================================================================== -/
/- =====================  LEMMAS AND THEOREMS  ========================= -/
/- ===================================================================== -/

/- ----- basic list cell lemmas ----- -/

theorem getD_set_self {α : Type} (l : List α) (i : ℕ) (x d : α) (h : i < l.length) :
    (l.set i x).getD i d = x := by
  induction l generalizing i with
  | nil => simp at h
  | cons a l ih =>
    cases i with
    | zero => rfl
    | succ n => simpa [List.getD] using ih n (by simpa using h)

theorem getD_set_ne {α : Type} (l : List α) (i j : ℕ) (x d : α) (h : i ≠ j) :
    (l.set i x).getD j d = l.getD j d := by
  induction l generalizing i j with
  | nil => rfl
  | cons a l ih =>
    cases i with
    | zero => cases j with
      | zero => exact absurd rfl h
      | succ m => rfl
    | succ n => cases j with
      | zero => rfl
      | succ m => simpa [List.getD] using ih n m (by omega)

theorem set_getD_self {α : Type} (l : List α) (i : ℕ) (d : α) :
    l.set i (l.getD i d) = l := by
  induction l generalizing i with
  | nil => rfl
  | cons a l ih =>
    cases i with
    | zero => rfl
    | succ n => simpa [List.getD] using congrArg (a :: ·) (ih n)

theorem getD_append_left {α : Type} (l l' : List α) (i : ℕ) (d : α) (h : i < l.length) :
    (l ++ l').getD i d = l.getD i d := by
  induction l generalizing i with
  | nil => simp at h
  | cons a l ih =>
    cases i with
    | zero => rfl
    | succ n => simpa [List.getD] using ih n (by simpa using h)

theorem getD_append_right_self {α : Type} (l : List α) (x d : α) :
    (l ++ [x]).getD l.length d = x := by
  induction l with
  | nil => rfl
  | cons a l ih => simp [List.getD, ih]

theorem getD_of_length_le {α : Type} (l : List α) (i : ℕ) (d : α) (h : l.length ≤ i) :
    l.getD i d = d := by
  induction l generalizing i with
  | nil => cases i <;> rfl
  | cons a l ih =>
    cases i with
    | zero => simp at h
    | succ n => simpa [List.getD] using ih n (by simpa using h)

/- ----- indexOf facts ----- -/

theorem indexOf_lt_length_of_mem {l : List String} {c : String} (h : c ∈ l) :
    l.indexOf c < l.length := List.indexOf_lt_length.mpr h

theorem indexOf_length_of_not_mem {l : List String} {c : String} (h : c ∉ l) :
    l.indexOf c = l.length := by
  induction l with
  | nil => rfl
  | cons a l ih =>
    have hne : c ≠ a := fun hc => h (hc ▸ List.mem_cons_self a l)
    have : a ≠ c := fun hc => hne hc.symm
    simp only [List.indexOf_cons, List.length_cons]
    rw [beq_eq_false_iff_ne.mpr this, cond_false]
    exact congrArg Nat.succ (ih (fun hm => h (List.mem_cons_of_mem a hm)))

theorem indexOf_ne_of_ne {l : List String} {c c' : String} (hc : c ∈ l) (hne : c ≠ c') :
    l.indexOf c ≠ l.indexOf c' := by
  intro he
  by_cases hc' : c' ∈ l
  · have h1 := List.indexOf_get (List.indexOf_lt_length.mpr hc)
    have h2 := List.indexOf_get (List.indexOf_lt_length.mpr hc')
    apply hne
    rw [← h1, ← h2]
    congr 1
    exact Fin.ext he
  · have := indexOf_length_of_not_mem hc'
    have hlt := indexOf_lt_length_of_mem hc
    omega

theorem indexOf_append_left {l l' : List String} {c : String} (h : c ∈ l) :
    (l ++ l').indexOf c = l.indexOf c := List.indexOf_append_of_mem h

/- ----- ASCII case lemmas ----- -/

theorem charOfNat_toNat {n : ℕ} (h : n < 55296) : (Char.ofNat n).toNat = n := by
  unfold Char.ofNat
  rw [dif_pos (Or.inl h)]
  simp [Char.ofNatAux, Char.toNat, UInt32.toNat, BitVec.toNat_ofNatLt]

theorem upChar_toNat_of_lower {c : Char} (h : isLowerB c = true) :
    (upChar c).toNat = c.toNat - 32 := by
  have hb : 97 ≤ c.toNat ∧ c.toNat ≤ 122 := by simpa [isLowerB] using h
  rw [upChar, if_pos h]
  exact charOfNat_toNat (by omega)

theorem loChar_toNat_of_upper {c : Char} (h : isUpperB c = true) :
    (loChar c).toNat = c.toNat + 32 := by
  have hb : 65 ≤ c.toNat ∧ c.toNat ≤ 90 := by simpa [isUpperB] using h
  rw [loChar, if_pos h]
  exact charOfNat_toNat (by omega)

theorem isAlphaB_upChar (c : Char) : isAlphaB (upChar c) = isAlphaB c := by
  by_cases h : isLowerB c = true
  · have ht := upChar_toNat_of_lower h
    have hb : 97 ≤ c.toNat ∧ c.toNat ≤ 122 := by simpa [isLowerB] using h
    simp only [isAlphaB, isLowerB, isUpperB, ht]
    have h1 : (decide (97 ≤ c.toNat - 32) && decide (c.toNat - 32 ≤ 122)) = false := by
      simp; omega
    have h2 : (decide (65 ≤ c.toNat - 32) && decide (c.toNat - 32 ≤ 90)) = true := by
      simp; omega
    have h3 : (decide (97 ≤ c.toNat) && decide (c.toNat ≤ 122)) = true := by simp; omega
    rw [h1, h2, h3]
    rfl
  · rw [upChar, if_neg h]

theorem isAlphaB_loChar (c : Char) : isAlphaB (loChar c) = isAlphaB c := by
  by_cases h : isUpperB c = true
  · have ht := loChar_toNat_of_upper h
    have hb : 65 ≤ c.toNat ∧ c.toNat ≤ 90 := by simpa [isUpperB] using h
    simp only [isAlphaB, isLowerB, isUpperB, ht]
    have h1 : (decide (97 ≤ c.toNat + 32) && decide (c.toNat + 32 ≤ 122)) = true := by
      simp; omega
    have h2 : (decide (65 ≤ c.toNat) && decide (c.toNat ≤ 90)) = true := by simp; omega
    have h3 : (decide (97 ≤ c.toNat) && decide (c.toNat ≤ 122)) = false := by simp; omega
    rw [h1, h2, h3]
    simp
  · rw [loChar, if_neg h]

theorem upChar_upChar (c : Char) : upChar (upChar c) = upChar c := by
  by_cases h : isLowerB c = true
  · have ht := upChar_toNat_of_lower h
    have hb : 97 ≤ c.toNat ∧ c.toNat ≤ 122 := by simpa [isLowerB] using h
    have : isLowerB (upChar c) = false := by
      simp only [isLowerB]
      simp; omega
    rw [upChar, if_neg (by simp [this])]
  · have hc : upChar c = c := by rw [upChar, if_neg h]
    rw [hc]
    exact hc

theorem loChar_loChar (c : Char) : loChar (loChar c) = loChar c := by
  by_cases h : isUpperB c = true
  · have ht := loChar_toNat_of_upper h
    have hb : 65 ≤ c.toNat ∧ c.toNat ≤ 90 := by simpa [isUpperB] using h
    have : isUpperB (loChar c) = false := by
      simp only [isUpperB]
      simp; omega
    rw [loChar, if_neg (by simp [this])]
  · have hc : loChar c = c := by rw [loChar, if_neg h]
    rw [hc]
    exact hc


theorem char_eq_of_toNat_eq {c d : Char} (h : c.toNat = d.toNat) : c = d :=
  Char.eq_of_val_eq (UInt32.eq_of_toBitVec_eq (BitVec.eq_of_toNat_eq h))

theorem loChar_upChar (c : Char) : loChar (upChar c) = loChar c := by
  by_cases h : isLowerB c = true
  · have hb : 97 ≤ c.toNat ∧ c.toNat ≤ 122 := by simpa [isLowerB] using h
    have ht := upChar_toNat_of_lower h
    have hu : isUpperB (upChar c) = true := by simp [isUpperB, ht]; omega
    have hnotu : isUpperB c = false := by simp [isUpperB]; omega
    have h1 := loChar_toNat_of_upper hu
    rw [ht] at h1
    have h2 : (loChar c) = c := by rw [loChar, if_neg (by simp [hnotu])]
    rw [h2]
    exact char_eq_of_toNat_eq (by omega)
  · rw [upChar, if_neg h]

/- ----- str.title lemmas ----- -/


theorem titleAux_eq (prev : Bool) (c : Char) (cs : List Char) :
    titleAux prev (c :: cs) = titleTf prev c :: titleAux (isAlphaB c) cs := by
  cases prev <;> rfl

theorem isAlphaB_titleTf (prev : Bool) (c : Char) : isAlphaB (titleTf prev c) = isAlphaB c := by
  unfold titleTf
  by_cases h : isAlphaB c = true
  · rw [if_pos h]
    cases prev with
    | false => exact isAlphaB_upChar c
    | true => exact isAlphaB_loChar c
  · rw [if_neg h]

theorem titleTf_titleTf (prev : Bool) (c : Char) : titleTf prev (titleTf prev c) = titleTf prev c := by
  unfold titleTf
  by_cases h : isAlphaB c = true
  · rw [if_pos h]
    cases prev with
    | false =>
      have ha := isAlphaB_upChar c
      rw [h] at ha
      simp only [cond_false, if_pos ha]
      exact upChar_upChar c
    | true =>
      have ha := isAlphaB_loChar c
      rw [h] at ha
      simp only [cond_true, if_pos ha]
      exact loChar_loChar c
  · rw [if_neg h, if_neg h]

theorem titleAux_titleAux (l : List Char) : ∀ b : Bool, titleAux b (titleAux b l) = titleAux b l := by
  induction l with
  | nil => intro b; rfl
  | cons c cs ih =>
    intro b
    rw [titleAux_eq, titleAux_eq, titleTf_titleTf, isAlphaB_titleTf, ih]

theorem titleStr_titleStr (s : String) : titleStr (titleStr s) = titleStr s := by
  unfold titleStr
  exact congrArg String.mk (titleAux_titleAux s.data false)

theorem titleCell_titleCell (c : Cell) : titleCell (titleCell c) = titleCell c := by
  unfold titleCell
  rw [show cellStr (Cell.str (titleStr (cellStr c))) = titleStr (cellStr c) from rfl,
    titleStr_titleStr]

/- ----- zfill lemmas ----- -/

theorem string_length_mk (l : List Char) : (String.mk l).length = l.length := rfl

theorem zfill_length_ge (w : ℕ) (s : String) : w ≤ (zfill w s).length := by
  unfold zfill
  by_cases h : w ≤ s.length
  · rw [if_pos h]; exact h
  · rw [if_neg h]
    rcases hd : s.data with _ | ⟨c, cs⟩
    · simp [string_length_mk]
    · dsimp only
      have hlen : s.length = cs.length + 1 := by
        have : s.length = s.data.length := rfl
        rw [this, hd]; rfl
      by_cases hs : c = '-' ∨ c = '+'
      · rw [if_pos hs]
        simp [string_length_mk]
        omega
      · rw [if_neg hs]
        simp [string_length_mk, hd]
        omega

theorem zfill_zfill (w : ℕ) (s : String) : zfill w (zfill w s) = zfill w s := by
  conv_lhs => rw [zfill]
  rw [if_pos (zfill_length_ge w s)]

theorem zfill_zero (s : String) : zfill 0 s = s := by
  unfold zfill
  rw [if_pos (Nat.zero_le _)]

/- ----- digit printing / parsing round trip ----- -/

theorem charVal_digitChar {d : ℕ} (h : d < 10) : charVal (digitChar d) = d := by
  interval_cases d <;> rfl

theorem isDigitB_digitChar (d : ℕ) : isDigitB (digitChar d) = true := by
  unfold digitChar
  split <;> rfl

theorem digitsVal_append_singleton (l : List Char) (c : Char) :
    digitsVal (l ++ [c]) = 10 * digitsVal l + charVal c := by
  unfold digitsVal
  rw [List.foldl_append]
  rfl

theorem natToCharsAux_succ (fuel m : ℕ) :
    natToCharsAux (fuel + 1) (m + 1)
    = natToCharsAux fuel ((m + 1) / 10) ++ [digitChar ((m + 1) % 10)] := rfl

theorem natToCharsAux_val {fuel n : ℕ} (h : n ≤ fuel) :
    digitsVal (natToCharsAux fuel n) = n := by
  induction fuel generalizing n with
  | zero =>
    have : n = 0 := by omega
    subst this; rfl
  | succ fuel ih =>
    cases n with
    | zero => rfl
    | succ m =>
      rw [natToCharsAux_succ, digitsVal_append_singleton,
        ih (by by_contra hc; push_neg at hc; omega),
        charVal_digitChar (Nat.mod_lt _ (by norm_num))]
      omega

theorem natToChars_val (n : ℕ) : digitsVal (natToChars n) = n := by
  unfold natToChars
  by_cases h : n = 0
  · rw [if_pos h, h]; rfl
  · rw [if_neg h]; exact natToCharsAux_val (le_refl n)

theorem natToCharsAux_digits {fuel n : ℕ} : ∀ c ∈ natToCharsAux fuel n, isDigitB c = true := by
  induction fuel generalizing n with
  | zero => intro c hc; simp [natToCharsAux] at hc
  | succ fuel ih =>
    cases n with
    | zero => intro c hc; simp [natToCharsAux] at hc
    | succ m =>
      intro c hc
      rw [natToCharsAux_succ] at hc
      rcases List.mem_append.mp hc with h1 | h2
      · exact ih c h1
      · rw [List.mem_singleton.mp h2]
        exact isDigitB_digitChar _

theorem natToChars_digits (n : ℕ) : ∀ c ∈ natToChars n, isDigitB c = true := by
  unfold natToChars
  by_cases h : n = 0
  · rw [if_pos h]; intro c hc; rw [List.mem_singleton.mp hc]; rfl
  · rw [if_neg h]; exact natToCharsAux_digits

theorem natToChars_ne_nil (n : ℕ) : natToChars n ≠ [] := by
  unfold natToChars
  by_cases h : n = 0
  · rw [if_pos h]; simp
  · rw [if_neg h]
    cases n with
    | zero => exact absurd rfl h
    | succ m => rw [natToCharsAux_succ]; simp

/- ----- numeric parse round trip ----- -/

theorem not_ws_of_digit {c : Char} (h : isDigitB c = true) : isWsB c = false := by
  have hb : 48 ≤ c.toNat ∧ c.toNat ≤ 57 := by simpa [isDigitB] using h
  simp only [isWsB]
  have h1 : c ≠ ' ' := fun he => by rw [he] at hb; simp at hb
  have h2 : c ≠ '\t' := fun he => by rw [he] at hb; simp at hb
  have h3 : c ≠ '\n' := fun he => by rw [he] at hb; simp at hb
  have h4 : c ≠ '\r' := fun he => by rw [he] at hb; simp at hb
  simp [h1, h2, h3, h4]

theorem ne_dash_of_digit {c : Char} (h : isDigitB c = true) : c ≠ '-' := by
  intro he; rw [he] at h; exact absurd h (by decide)

theorem ne_plus_of_digit {c : Char} (h : isDigitB c = true) : c ≠ '+' := by
  intro he; rw [he] at h; exact absurd h (by decide)

theorem loChar_of_digit {c : Char} (h : isDigitB c = true) : loChar c = c := by
  have hb : 48 ≤ c.toNat ∧ c.toNat ≤ 57 := by simpa [isDigitB] using h
  rw [loChar, if_neg]
  simp only [isUpperB]
  simp; omega

theorem dropWhile_eq_self_of_all {p : Char → Bool} {l : List Char}
    (h : ∀ c ∈ l, p c = false) : l.dropWhile p = l := by
  cases l with
  | nil => rfl
  | cons a l => rw [List.dropWhile_cons, if_neg (by simp [h a (List.mem_cons_self a l)])]

theorem trimChars_of_no_ws {l : List Char} (h : ∀ c ∈ l, isWsB c = false) :
    trimChars l = l := by
  unfold trimChars
  rw [dropWhile_eq_self_of_all h,
    dropWhile_eq_self_of_all (fun c hc => h c (List.mem_reverse.mp hc)),
    List.reverse_reverse]

theorem takeWhile_eq_self_of_all {p : Char → Bool} {l : List Char}
    (h : ∀ c ∈ l, p c = true) : l.takeWhile p = l := by
  induction l with
  | nil => rfl
  | cons a l ih =>
    rw [List.takeWhile_cons, if_pos (by simp [h a (List.mem_cons_self a l)])]
    rw [ih (fun c hc => h c (List.mem_cons_of_mem a hc))]

theorem dropWhile_eq_nil_of_all {p : Char → Bool} {l : List Char}
    (h : ∀ c ∈ l, p c = true) : l.dropWhile p = [] := by
  induction l with
  | nil => rfl
  | cons a l ih =>
    rw [List.dropWhile_cons, if_pos (by simp [h a (List.mem_cons_self a l)])]
    exact ih (fun c hc => h c (List.mem_cons_of_mem a hc))

theorem parseNumCore_digits {l : List Char} (hne : l ≠ [])
    (hd : ∀ c ∈ l, isDigitB c = true) :
    parseNumCore l = some (NumVal.nvInt (Int.ofNat (digitsVal l))) := by
  unfold parseNumCore
  rw [takeWhile_eq_self_of_all hd, dropWhile_eq_nil_of_all hd]
  simp only [List.isEmpty_iff]
  rw [if_neg hne]
  rfl

theorem lowerChars_digits {l : List Char} (hd : ∀ c ∈ l, isDigitB c = true) :
    lowerChars l = l := by
  unfold lowerChars
  exact List.map_congr_left (fun c hc => loChar_of_digit (hd c hc)) |>.trans (List.map_id l)

theorem digits_ne_word {l : List Char} (hd : ∀ c ∈ l, isDigitB c = true)
    {w : List Char} (hw : ∃ c ∈ w, isDigitB c = false) : l ≠ w := by
  intro he
  rcases hw with ⟨c, hcw, hcd⟩
  have := hd c (he ▸ hcw)
  rw [this] at hcd
  exact absurd hcd (by simp)

theorem digitsVal_replicate_zeros (m : ℕ) (l : List Char) :
    digitsVal (List.replicate m '0' ++ l) = digitsVal l := by
  induction m with
  | zero => rfl
  | succ k ih => simpa [List.replicate_succ, digitsVal] using ih

theorem parseNumChars_pad_digits (m : ℕ) {l : List Char} (hne : l ≠ [])
    (hd : ∀ c ∈ l, isDigitB c = true) :
    parseNumChars (List.replicate m '0' ++ l) = some (NumVal.nvInt (Int.ofNat (digitsVal l))) := by
  have hall : ∀ c ∈ List.replicate m '0' ++ l, isDigitB c = true := by
    intro c hc
    rcases List.mem_append.mp hc with h1 | h2
    · rw [List.eq_of_mem_replicate h1]; rfl
    · exact hd c h2
  have hnil : List.replicate m '0' ++ l ≠ [] := by
    simp only [ne_eq, List.append_eq_nil]
    rintro ⟨-, h2⟩
    exact hne h2
  unfold parseNumChars
  rw [trimChars_of_no_ws (fun c hc => not_ws_of_digit (hall c hc))]
  rcases hL : List.replicate m '0' ++ l with _ | ⟨c, rest⟩
  · exact absurd hL hnil
  · dsimp only
    have hc : isDigitB c = true := hall c (by rw [hL]; exact List.mem_cons_self c rest)
    rw [if_neg (ne_dash_of_digit hc), if_neg (ne_plus_of_digit hc)]
    rw [lowerChars_digits (by rw [← hL]; exact hall)]
    rw [if_neg, if_neg]
    · rw [← hL, parseNumCore_digits hnil hall, digitsVal_replicate_zeros]
      simp
    · exact digits_ne_word (by rw [← hL]; exact hall) ⟨'n', by simp, by decide⟩
    · rw [not_or]
      constructor
      · exact digits_ne_word (by rw [← hL]; exact hall) ⟨'i', by simp, by decide⟩
      · exact digits_ne_word (by rw [← hL]; exact hall) ⟨'i', by simp, by decide⟩

theorem parseNumChars_neg_pad_digits (m : ℕ) {l : List Char} (hne : l ≠ [])
    (hd : ∀ c ∈ l, isDigitB c = true) :
    parseNumChars ('-' :: (List.replicate m '0' ++ l))
    = some (NumVal.nvInt (-(Int.ofNat (digitsVal l)))) := by
  have hall : ∀ c ∈ List.replicate m '0' ++ l, isDigitB c = true := by
    intro c hc
    rcases List.mem_append.mp hc with h1 | h2
    · rw [List.eq_of_mem_replicate h1]; rfl
    · exact hd c h2
  have hnil : List.replicate m '0' ++ l ≠ [] := by
    simp only [ne_eq, List.append_eq_nil]
    rintro ⟨-, h2⟩
    exact hne h2
  unfold parseNumChars
  have hnw : ∀ c ∈ '-' :: (List.replicate m '0' ++ l), isWsB c = false := by
    intro c hc
    rcases List.mem_cons.mp hc with h1 | h2
    · rw [h1]; rfl
    · exact not_ws_of_digit (hall c h2)
  rw [trimChars_of_no_ws hnw]
  dsimp only
  rw [if_pos rfl]
  rw [lowerChars_digits hall]
  rw [if_neg, if_neg]
  · rw [parseNumCore_digits hnil hall, digitsVal_replicate_zeros]
    rfl
  · exact digits_ne_word hall ⟨'n', by simp, by decide⟩
  · rw [not_or]
    constructor
    · exact digits_ne_word hall ⟨'i', by simp, by decide⟩
    · exact digits_ne_word hall ⟨'i', by simp, by decide⟩

theorem zfill_data_of_digits {a : ℕ} (w : ℕ) :
    ∃ m, (zfill w ⟨natToChars a⟩).data = List.replicate m '0' ++ natToChars a := by
  unfold zfill
  by_cases h : w ≤ (String.mk (natToChars a)).length
  · exact ⟨0, by rw [if_pos h]; simp⟩
  · rw [if_neg h]
    rcases hd : natToChars a with _ | ⟨c, cs⟩
    · exact absurd hd (natToChars_ne_nil a)
    · have hcd : isDigitB c = true := natToChars_digits a c (by rw [hd]; exact List.mem_cons_self c cs)
      dsimp only
      rw [if_neg (by rw [not_or]; exact ⟨ne_dash_of_digit hcd, ne_plus_of_digit hcd⟩)]
      exact ⟨_, rfl⟩

theorem zfill_data_of_neg_digits {a : ℕ} (w : ℕ) :
    ∃ m, (zfill w ⟨'-' :: natToChars a⟩).data
      = '-' :: (List.replicate m '0' ++ natToChars a) := by
  unfold zfill
  by_cases h : w ≤ (String.mk ('-' :: natToChars a)).length
  · exact ⟨0, by rw [if_pos h]; simp⟩
  · rw [if_neg h]
    dsimp only
    rw [if_pos (Or.inl rfl)]
    exact ⟨_, rfl⟩

/-- Round trip: to_numeric recovers an integer from its possibly
zero-padded str() rendering. -/
theorem toNumeric_zfill_intToStr (w : ℕ) (k : ℤ) :
    toNumericCell (Cell.str (zfill w (intToStr k))) = Cell.int k := by
  show (match parseNumChars (zfill w (intToStr k)).data with
        | some v => v.toCell
        | none => Cell.null) = Cell.int k
  unfold intToStr
  by_cases hk : k < 0
  · rw [if_pos hk]
    rcases zfill_data_of_neg_digits (a := k.natAbs) w with ⟨m, hm⟩
    rw [hm, parseNumChars_neg_pad_digits m (natToChars_ne_nil _) (natToChars_digits _)]
    rw [natToChars_val]
    have hcast : (Int.ofNat k.natAbs) = (k.natAbs : ℤ) := rfl
    have : -(Int.ofNat k.natAbs) = k := by rw [hcast]; omega
    rw [this]
    rfl
  · rw [if_neg hk]
    rcases zfill_data_of_digits (a := k.natAbs) w with ⟨m, hm⟩
    rw [hm, parseNumChars_pad_digits m (natToChars_ne_nil _) (natToChars_digits _)]
    rw [natToChars_val]
    have hcast : (Int.ofNat k.natAbs) = (k.natAbs : ℤ) := rfl
    have : Int.ofNat k.natAbs = k := by rw [hcast]; omega
    rw [this]
    rfl

theorem toNumeric_intToStr (k : ℤ) :
    toNumericCell (Cell.str (intToStr k)) = Cell.int k := by
  have := toNumeric_zfill_intToStr 0 k
  rwa [zfill_zero] at this

/- ----- idempotence of the per-cell cleaning functions ----- -/

theorem toNumericCell_idem (c : Cell) : toNumericCell (toNumericCell c) = toNumericCell c := by
  cases c with
  | str s =>
    have hs : toNumericCell (Cell.str s) = (match parseNumChars s.data with
      | some v => v.toCell
      | none => Cell.null) := rfl
    rw [hs]
    cases h : parseNumChars s.data with
    | none => rfl
    | some v => cases v <;> rfl
  | bool b => cases b <;> rfl
  | _ => rfl

theorem strCastCell_idem (c : Cell) : strCastCell (strCastCell c) = strCastCell c := rfl

theorem zfill5StrCell_idem (c : Cell) : zfill5StrCell (zfill5StrCell c) = zfill5StrCell c := by
  unfold zfill5StrCell
  rw [show cellStr (Cell.str (zfill 5 (cellStr c))) = zfill 5 (cellStr c) from rfl, zfill_zfill]

theorem zipNumCell_idem (w : ℕ) (c : Cell) : zipNumCell w (zipNumCell w c) = zipNumCell w c := by
  cases htn : toNumericCell c
  all_goals
    unfold zipNumCell
    rw [htn]
    try rw [toNumeric_zfill_intToStr]
    try rfl

theorem phoneCell_idem (c : Cell) : phoneCell (phoneCell c) = phoneCell c := by
  cases htn : toNumericCell c
  all_goals
    unfold phoneCell
    rw [htn]
    try rw [toNumeric_intToStr]
    try rfl

theorem toDatetimeCell_idem (c : Cell) : toDatetimeCell (toDatetimeCell c) = toDatetimeCell c := by
  cases c with
  | str s =>
    have hs : toDatetimeCell (Cell.str s) = (match parseDateChars s.data with
      | some (y, m, d) => Cell.date y m d
      | none => Cell.null) := rfl
    rw [hs]
    cases h : parseDateChars s.data with
    | none => rfl
    | some t => rcases t with ⟨y, m, d⟩; rfl
  | _ => rfl

theorem rstripPctChars_idem (l : List Char) :
    rstripPctChars (rstripPctChars l) = rstripPctChars l := by
  unfold rstripPctChars
  rw [List.reverse_reverse, List.dropWhile_idempotent]

theorem rstripPctCell_idem (c : Cell) : rstripPctCell (rstripPctCell c) = rstripPctCell c := by
  unfold rstripPctCell
  rw [show cellStr (Cell.str (rstripPct (cellStr c))) = rstripPct (cellStr c) from rfl]
  unfold rstripPct
  rw [show (String.mk (rstripPctChars (cellStr c).data)).data = rstripPctChars (cellStr c).data from rfl]
  rw [rstripPctChars_idem]

theorem stripCommas_idem (s : String) : stripCommas (stripCommas s) = stripCommas s := by
  unfold stripCommas
  rw [show (String.mk (s.data.filter (fun c => c != ','))).data = s.data.filter (fun c => c != ',') from rfl]
  rw [List.filter_filter]
  simp

theorem stripCommasCell_idem (c : Cell) :
    stripCommasCell (stripCommasCell c) = stripCommasCell c := by
  unfold stripCommasCell
  rw [show cellStr (Cell.str (stripCommas (cellStr c))) = stripCommas (cellStr c) from rfl,
    stripCommas_idem]

theorem parse_percentage_idem (c : Cell) :
    parse_percentage (parse_percentage c) = parse_percentage c := by
  cases c with
  | str s =>
    have hs : parse_percentage (Cell.str s)
      = (match parseNumChars (rstripPctChars (trimChars s.data)) with
        | some (NumVal.nvInt n) => Cell.real (mkRat n 100)
        | some (NumVal.nvReal q) => Cell.real (ratUnscale 2 q)
        | some NumVal.nvInf => Cell.inf
        | some NumVal.nvNinf => Cell.ninf
        | some NumVal.nvNan => Cell.null
        | none => Cell.null) := rfl
    rw [hs]
    cases h : parseNumChars (rstripPctChars (trimChars s.data)) with
    | none => rfl
    | some v => cases v <;> rfl
  | _ => rfl

/- ----- table operation lemmas ----- -/

theorem cols_mapCol (c : String) (f : Cell → Cell) (t : Table) :
    (mapCol c f t).cols = t.cols := by
  unfold mapCol
  split <;> rfl

theorem WF_mapCol {t : Table} (c : String) (f : Cell → Cell) (h : t.WF) :
    (mapCol c f t).WF := by
  unfold mapCol
  split
  · intro r hr
    rcases List.mem_map.mp hr with ⟨r0, hr0, rfl⟩
    simpa using h r0 hr0
  · exact h

theorem getColCells_mapCol_ne {c' c : String} (f : Cell → Cell) (t : Table) (hc : c' ≠ c) :
    getColCells (mapCol c f t) c' = getColCells t c' := by
  unfold mapCol
  split
  · next hmem =>
    unfold getColCells rowCell
    simp only [List.map_map]
    apply List.map_congr_left
    intro r _
    simp only [Function.comp]
    exact getD_set_ne _ _ _ _ _ (indexOf_ne_of_ne hmem (fun he => hc he.symm))
  · rfl

theorem getColCells_mapCol_self {t : Table} {c : String} (f : Cell → Cell)
    (hwf : t.WF) (hc : c ∈ t.cols) :
    getColCells (mapCol c f t) c = (getColCells t c).map f := by
  unfold mapCol
  rw [if_pos hc]
  unfold getColCells rowCell
  simp only [List.map_map]
  apply List.map_congr_left
  intro r hr
  simp only [Function.comp]
  exact getD_set_self _ _ _ _ (by rw [hwf r hr]; exact indexOf_lt_length_of_mem hc)

theorem mapCol_eq_self {t : Table} {c : String} {f : Cell → Cell}
    (h : ∀ x ∈ getColCells t c, f x = x) : mapCol c f t = t := by
  unfold mapCol
  split
  · next hmem =>
    obtain ⟨cols, rows⟩ := t
    congr 1
    have hpt : ∀ r ∈ rows,
        r.set (cols.indexOf c) (f (rowCell ⟨cols, rows⟩ r c)) = r := by
      intro r hr
      have hfix : f (rowCell ⟨cols, rows⟩ r c) = rowCell ⟨cols, rows⟩ r c :=
        h _ (List.mem_map_of_mem _ hr)
      rw [hfix]
      exact set_getD_self r _ Cell.null
    exact (List.map_congr_left (fun r hr => hpt r hr)).trans (List.map_id rows)
  · rfl

/- ----- deriveCol lemmas ----- -/


theorem reqs_all_iff (reqs : List String) (t : Table) :
    (reqs.all (fun d => decide (d ∈ t.cols)) = true) ↔ reqsOk reqs t := by
  rw [List.all_eq_true]
  unfold reqsOk
  simp

theorem deriveCol_not_reqs {reqs : List String} {c : String} {deps : List String}
    {g : List Cell → Cell} {t : Table} (h : ¬ reqsOk reqs t) :
    deriveCol reqs c deps g t = t := by
  unfold deriveCol
  rw [if_neg (fun hb => h ((reqs_all_iff reqs t).mp hb))]

theorem deriveCol_overwrite {reqs : List String} {c : String} {deps : List String}
    {g : List Cell → Cell} {t : Table} (hreq : reqsOk reqs t) (hc : c ∈ t.cols) :
    deriveCol reqs c deps g t
    = { cols := t.cols,
        rows := t.rows.map (fun r => r.set (t.cols.indexOf c) (g (rowVals t deps r))) } := by
  unfold deriveCol
  rw [if_pos ((reqs_all_iff reqs t).mpr hreq), if_pos hc]

theorem deriveCol_append {reqs : List String} {c : String} {deps : List String}
    {g : List Cell → Cell} {t : Table} (hreq : reqsOk reqs t) (hc : c ∉ t.cols) :
    deriveCol reqs c deps g t
    = { cols := t.cols ++ [c],
        rows := t.rows.map (fun r => padTo t.cols.length r ++ [g (rowVals t deps r)]) } := by
  unfold deriveCol
  rw [if_pos ((reqs_all_iff reqs t).mpr hreq), if_neg hc]

theorem padTo_of_WF {t : Table} (hwf : t.WF) {r : List Cell} (hr : r ∈ t.rows) :
    padTo t.cols.length r = r := by
  unfold padTo
  rw [hwf r hr]
  simp

theorem WF_deriveCol {t : Table} (reqs : List String) (c : String) (deps : List String)
    (g : List Cell → Cell) (hwf : t.WF) : (deriveCol reqs c deps g t).WF := by
  by_cases hreq : reqsOk reqs t
  · by_cases hc : c ∈ t.cols
    · rw [deriveCol_overwrite hreq hc]
      intro r hr
      rcases List.mem_map.mp hr with ⟨r0, hr0, rfl⟩
      simpa using hwf r0 hr0
    · rw [deriveCol_append hreq hc]
      intro r hr
      rcases List.mem_map.mp hr with ⟨r0, hr0, rfl⟩
      simp [padTo_of_WF hwf hr0]
      exact hwf r0 hr0
  · rw [deriveCol_not_reqs hreq]
    exact hwf

theorem cols_deriveCol_of_mem {reqs : List String} {c : String} {deps : List String}
    {g : List Cell → Cell} {t : Table} (hc : c ∈ t.cols) :
    (deriveCol reqs c deps g t).cols = t.cols := by
  by_cases hreq : reqsOk reqs t
  · rw [deriveCol_overwrite hreq hc]
  · rw [deriveCol_not_reqs hreq]

theorem mem_cols_deriveCol_of_ne {reqs : List String} {c x : String} {deps : List String}
    {g : List Cell → Cell} {t : Table} (hx : x ≠ c) :
    x ∈ (deriveCol reqs c deps g t).cols ↔ x ∈ t.cols := by
  by_cases hreq : reqsOk reqs t
  · by_cases hc : c ∈ t.cols
    · rw [deriveCol_overwrite hreq hc]
    · rw [deriveCol_append hreq hc]
      simp [hx]
  · rw [deriveCol_not_reqs hreq]

theorem indexOf_append_self {l : List String} {c : String} (h : c ∉ l) :
    (l ++ [c]).indexOf c = l.length := by
  induction l with
  | nil => simp [List.indexOf_cons]
  | cons a l ih =>
    have hne : a ≠ c := fun he => h (he ▸ List.mem_cons_self a l)
    simp only [List.cons_append, List.indexOf_cons, List.length_cons]
    rw [beq_eq_false_iff_ne.mpr hne, cond_false]
    exact congrArg Nat.succ (ih (fun hm => h (List.mem_cons_of_mem a hm)))

theorem getColCells_deriveCol_ne {reqs : List String} {c x : String} {deps : List String}
    {g : List Cell → Cell} {t : Table} (hwf : t.WF) (hx : x ≠ c) :
    getColCells (deriveCol reqs c deps g t) x = getColCells t x := by
  by_cases hreq : reqsOk reqs t
  · by_cases hc : c ∈ t.cols
    · rw [deriveCol_overwrite hreq hc]
      unfold getColCells rowCell
      simp only [List.map_map]
      apply List.map_congr_left
      intro r _
      simp only [Function.comp]
      exact getD_set_ne _ _ _ _ _ (indexOf_ne_of_ne hc (fun he => hx he.symm))
    · rw [deriveCol_append hreq hc]
      unfold getColCells rowCell
      simp only [List.map_map]
      apply List.map_congr_left
      intro r hr
      simp only [Function.comp]
      by_cases hxm : x ∈ t.cols
      · rw [indexOf_append_left hxm, padTo_of_WF hwf hr]
        exact getD_append_left _ _ _ _ (by rw [hwf r hr]; exact indexOf_lt_length_of_mem hxm)
      · have hxm' : x ∉ t.cols ++ [c] := by
          simp [hxm, hx]
        rw [indexOf_length_of_not_mem hxm', indexOf_length_of_not_mem hxm]
        rw [getD_of_length_le, getD_of_length_le]
        · rw [hwf r hr]
        · rw [padTo_of_WF hwf hr]
          simp [hwf r hr]
  · rw [deriveCol_not_reqs hreq]

theorem getColCells_deriveCol_self {reqs : List String} {c : String} {deps : List String}
    {g : List Cell → Cell} {t : Table} (hwf : t.WF) (hreq : reqsOk reqs t) :
    getColCells (deriveCol reqs c deps g t) c
    = t.rows.map (fun r => g (rowVals t deps r)) := by
  by_cases hc : c ∈ t.cols
  · rw [deriveCol_overwrite hreq hc]
    unfold getColCells rowCell
    simp only [List.map_map]
    apply List.map_congr_left
    intro r hr
    simp only [Function.comp]
    exact getD_set_self _ _ _ _ (by rw [hwf r hr]; exact indexOf_lt_length_of_mem hc)
  · rw [deriveCol_append hreq hc]
    unfold getColCells rowCell
    simp only [List.map_map]
    apply List.map_congr_left
    intro r hr
    simp only [Function.comp]
    rw [indexOf_append_self hc, padTo_of_WF hwf hr]
    rw [← hwf r hr]
    exact getD_append_right_self _ _ _

theorem deriveCol_eq_self {reqs : List String} {c : String} {deps : List String}
    {g : List Cell → Cell} {t : Table} (hreq : reqsOk reqs t) (hc : c ∈ t.cols)
    (h : ∀ r ∈ t.rows, g (rowVals t deps r) = rowCell t r c) :
    deriveCol reqs c deps g t = t := by
  rw [deriveCol_overwrite hreq hc]
  obtain ⟨cols, rows⟩ := t
  congr 1
  have hpt : ∀ r ∈ rows,
      r.set (cols.indexOf c) (g (rowVals ⟨cols, rows⟩ deps r)) = r := by
    intro r hr
    rw [h r hr]
    exact set_getD_self r _ Cell.null
  exact (List.map_congr_left (fun r hr => hpt r hr)).trans (List.map_id rows)

/- ----- dependency-column stability ----- -/


theorem depCells_mapCol_ne {c : String} {deps : List String} (f : Cell → Cell) (t : Table)
    (hnd : c ∉ deps) : depCells (mapCol c f t) deps = depCells t deps := by
  unfold mapCol
  split
  · next hmem =>
    unfold depCells rowVals rowCell
    simp only [List.map_map]
    apply List.map_congr_left
    intro r _
    simp only [Function.comp]
    apply List.map_congr_left
    intro d hd
    have hdc : d ≠ c := fun he => hnd (he ▸ hd)
    exact getD_set_ne _ _ _ _ _ (indexOf_ne_of_ne hmem (fun he => hdc he.symm))
  · rfl

theorem depCells_deriveCol_ne {reqs : List String} {c : String} {deps deps' : List String}
    {g : List Cell → Cell} {t : Table} (hwf : t.WF) (hnd : c ∉ deps) :
    depCells (deriveCol reqs c deps' g t) deps = depCells t deps := by
  by_cases hreq : reqsOk reqs t
  · by_cases hc : c ∈ t.cols
    · rw [deriveCol_overwrite hreq hc]
      unfold depCells rowVals rowCell
      simp only [List.map_map]
      apply List.map_congr_left
      intro r _
      simp only [Function.comp]
      apply List.map_congr_left
      intro d hd
      have hdc : d ≠ c := fun he => hnd (he ▸ hd)
      exact getD_set_ne _ _ _ _ _ (indexOf_ne_of_ne hc (fun he => hdc he.symm))
    · rw [deriveCol_append hreq hc]
      unfold depCells rowVals rowCell
      simp only [List.map_map]
      apply List.map_congr_left
      intro r hr
      simp only [Function.comp]
      apply List.map_congr_left
      intro d hd
      have hdc : d ≠ c := fun he => hnd (he ▸ hd)
      by_cases hdm : d ∈ t.cols
      · rw [indexOf_append_left hdm, padTo_of_WF hwf hr]
        exact getD_append_left _ _ _ _ (by rw [hwf r hr]; exact indexOf_lt_length_of_mem hdm)
      · have hdm' : d ∉ t.cols ++ [c] := by simp [hdm, hdc]
        rw [indexOf_length_of_not_mem hdm', indexOf_length_of_not_mem hdm]
        rw [getD_of_length_le, getD_of_length_le]
        · rw [hwf r hr]
        · rw [padTo_of_WF hwf hr]
          simp [hwf r hr]
  · rw [deriveCol_not_reqs hreq]

/-- getColCells as a rows.map, for pointwise reasoning. -/
theorem getColCells_eq_map (t : Table) (c : String) :
    getColCells t c = t.rows.map (fun r => rowCell t r c) := rfl

theorem depCells_eq_map (t : Table) (deps : List String) :
    depCells t deps = t.rows.map (fun r => rowVals t deps r) := rfl

/- ----- sequences of columnwise map steps ----- -/

theorem tableExt {t u : Table} (hc : t.cols = u.cols) (hr : t.rows = u.rows) : t = u := by
  obtain ⟨a, b⟩ := t
  obtain ⟨a2, b2⟩ := u
  simp only at hc hr
  rw [hc, hr]

theorem rows_mapCol_of_mem {t : Table} {c : String} (f : Cell → Cell) (hc : c ∈ t.cols) :
    (mapCol c f t).rows
    = t.rows.map (fun r =>
        r.set (t.cols.indexOf c) (f (r.getD (t.cols.indexOf c) Cell.null))) := by
  unfold mapCol rowCell
  rw [if_pos hc]

theorem mapCol_of_not_mem {t : Table} {c : String} (f : Cell → Cell) (hc : c ∉ t.cols) :
    mapCol c f t = t := by
  unfold mapCol
  rw [if_neg hc]

theorem mapCol_mapCol_same (c : String) (f g : Cell → Cell) (t : Table) :
    mapCol c f (mapCol c g t) = mapCol c (fun x => f (g x)) t := by
  by_cases hc : c ∈ t.cols
  · have hc2 : c ∈ (mapCol c g t).cols := by rw [cols_mapCol]; exact hc
    apply tableExt
    · rw [cols_mapCol, cols_mapCol, cols_mapCol]
    · rw [rows_mapCol_of_mem f hc2, cols_mapCol, rows_mapCol_of_mem g hc,
        rows_mapCol_of_mem _ hc, List.map_map]
      apply List.map_congr_left
      intro r _
      simp only [Function.comp]
      by_cases hi : t.cols.indexOf c < r.length
      · rw [getD_set_self _ _ _ _ hi, List.set_set]
      · push_neg at hi
        rw [List.set_eq_of_length_le hi, List.set_eq_of_length_le hi,
          List.set_eq_of_length_le hi]
  · rw [mapCol_of_not_mem g hc, mapCol_of_not_mem f hc, mapCol_of_not_mem _ hc]

theorem mapCol_comm {c c' : String} (f g : Cell → Cell) (t : Table) (hne : c ≠ c') :
    mapCol c f (mapCol c' g t) = mapCol c' g (mapCol c f t) := by
  by_cases hc : c ∈ t.cols
  · by_cases hc' : c' ∈ t.cols
    · have hc2 : c ∈ (mapCol c' g t).cols := by rw [cols_mapCol]; exact hc
      have hc'2 : c' ∈ (mapCol c f t).cols := by rw [cols_mapCol]; exact hc'
      apply tableExt
      · rw [cols_mapCol, cols_mapCol, cols_mapCol, cols_mapCol]
      · rw [rows_mapCol_of_mem f hc2, cols_mapCol, rows_mapCol_of_mem g hc',
          rows_mapCol_of_mem g hc'2, cols_mapCol, rows_mapCol_of_mem f hc,
          List.map_map, List.map_map]
        apply List.map_congr_left
        intro r _
        simp only [Function.comp]
        have hij : t.cols.indexOf c ≠ t.cols.indexOf c' := indexOf_ne_of_ne hc hne
        rw [getD_set_ne _ _ _ _ _ (fun he => hij he.symm), getD_set_ne _ _ _ _ _ hij]
        exact List.set_comm _ _ _ (Ne.symm hij)
    · rw [mapCol_of_not_mem g hc']
      rw [mapCol_of_not_mem g (show c' ∉ (mapCol c f t).cols by rw [cols_mapCol]; exact hc')]
  · rw [mapCol_of_not_mem f hc]
    rw [mapCol_of_not_mem f (show c ∉ (mapCol c' g t).cols by rw [cols_mapCol]; exact hc)]



theorem applyMOps_cons (o : MOp) (L : List MOp) (t : Table) :
    applyMOps (o :: L) t = applyMOps L (mapCol o.c o.f t) := rfl

theorem applyMOps_nil (t : Table) : applyMOps [] t = t := rfl

theorem applyMOps_append (L L' : List MOp) (t : Table) :
    applyMOps (L ++ L') t = applyMOps L' (applyMOps L t) := by
  unfold applyMOps
  exact List.foldl_append _ _ _ _

theorem cols_applyMOps (L : List MOp) (t : Table) : (applyMOps L t).cols = t.cols := by
  induction L generalizing t with
  | nil => rfl
  | cons o L ih => rw [applyMOps_cons, ih, cols_mapCol]

theorem WF_applyMOps (L : List MOp) {t : Table} (hwf : t.WF) : (applyMOps L t).WF := by
  induction L generalizing t with
  | nil => exact hwf
  | cons o L ih => rw [applyMOps_cons]; exact ih (WF_mapCol _ _ hwf)


theorem mapCol_applyMOps_comm {L : List MOp} {c : String} {f : Cell → Cell}
    (hcons : keyConsistent L c f) (t : Table) :
    mapCol c f (applyMOps L t) = applyMOps L (mapCol c f t) := by
  induction L generalizing t with
  | nil => rfl
  | cons o L ih =>
    rw [applyMOps_cons, applyMOps_cons]
    rw [ih (fun o' ho' => hcons o' (List.mem_cons_of_mem o ho'))]
    congr 1
    by_cases hoc : o.c = c
    · rw [hcons o (List.mem_cons_self o L) hoc, hoc]
    · exact mapCol_comm f o.f t (fun he => hoc he.symm)

theorem applyMOps_idem {L : List MOp}
    (hidem : ∀ o ∈ L, ∀ x, o.f (o.f x) = o.f x)
    (hcons : ∀ o ∈ L, keyConsistent L o.c o.f) (t : Table) :
    applyMOps L (applyMOps L t) = applyMOps L t := by
  induction L generalizing t with
  | nil => rfl
  | cons o L ih =>
    have hconsL : keyConsistent L o.c o.f := fun o' ho' =>
      hcons o (List.mem_cons_self o L) o' (List.mem_cons_of_mem o ho')
    rw [applyMOps_cons, applyMOps_cons]
    rw [mapCol_applyMOps_comm hconsL (mapCol o.c o.f t)]
    rw [mapCol_mapCol_same]
    have hfx : (fun x => o.f (o.f x)) = o.f := by
      funext x
      exact hidem o (List.mem_cons_self o L) x
    rw [hfx]
    exact ih (fun o' ho' x => hidem o' (List.mem_cons_of_mem o ho') x)
      (fun o' ho' o'' ho'' he =>
        hcons o' (List.mem_cons_of_mem o ho') o'' (List.mem_cons_of_mem o ho'') he)
      (mapCol o.c o.f t)

theorem genericSteps_eq (t : Table) : genericSteps t = applyMOps genericOps t := by
  unfold genericSteps genericOps
  simp only [applyMOps, List.foldl_cons, List.foldl_nil]

theorem ffsSteps_eq (t : Table) : ffsSteps t = applyMOps ffsOps t := by
  unfold ffsSteps ffsOps
  simp only [applyMOps, List.foldl_cons, List.foldl_nil]

theorem sudCommon_eq (t : Table) : sudCommon t = applyMOps sudCommonOps t := by
  unfold sudCommon sudCommonOps
  simp only [applyMOps, List.foldl_cons, List.foldl_nil]

theorem coreSetSteps_eq (t : Table) : coreSetSteps t = applyMOps coreOps t := by
  unfold coreSetSteps coreOps
  simp only [applyMOps, List.foldl_cons, List.foldl_nil]

theorem matSteps_eq (t : Table) : matSteps t = applyMOps matOps t := by
  unfold matSteps matOps
  simp only [applyMOps, List.foldl_cons, List.foldl_nil]

theorem fosterNumerics_eq (t : Table) : fosterNumerics t = applyMOps fosterNumOps t := by
  unfold fosterNumerics fosterNumOps
  simp only [applyMOps, List.foldl_cons, List.foldl_nil]

/- ----- idempotence of the map-only pipelines ----- -/

theorem genericOps_idem : ∀ o ∈ genericOps, ∀ x, o.f (o.f x) = o.f x := by
  intro o ho x
  simp only [genericOps, List.mem_cons, List.not_mem_nil, or_false] at ho
  rcases ho with rfl | rfl | rfl | rfl | rfl | rfl | rfl
  · exact titleCell_titleCell x
  · exact titleCell_titleCell x
  · exact zfill5StrCell_idem x
  · exact zipNumCell_idem 5 x
  · exact zipNumCell_idem 5 x
  · exact toNumericCell_idem x
  · exact toNumericCell_idem x

theorem genericOps_cons : ∀ o ∈ genericOps, keyConsistent genericOps o.c o.f := by
  intro o ho o' ho' he
  simp only [genericOps, List.mem_cons, List.not_mem_nil, or_false] at ho ho'
  rcases ho with rfl | rfl | rfl | rfl | rfl | rfl | rfl <;>
    rcases ho' with rfl | rfl | rfl | rfl | rfl | rfl | rfl <;>
      first
      | rfl
      | exact absurd he (by decide)

theorem genericSteps_idem (t : Table) :
    genericSteps (genericSteps t) = genericSteps t := by
  rw [genericSteps_eq t, genericSteps_eq]
  exact applyMOps_idem genericOps_idem genericOps_cons t

theorem ffsAll_idem : ∀ o ∈ genericOps ++ ffsOps, ∀ x, o.f (o.f x) = o.f x := by
  intro o ho x
  simp only [List.mem_append, genericOps, ffsOps, List.mem_cons, List.not_mem_nil, or_false] at ho
  rcases ho with (rfl|rfl|rfl|rfl|rfl|rfl|rfl) | (rfl|rfl|rfl|rfl|rfl|rfl)
  · exact titleCell_titleCell x
  · exact titleCell_titleCell x
  · exact zfill5StrCell_idem x
  · exact zipNumCell_idem 5 x
  · exact zipNumCell_idem 5 x
  · exact toNumericCell_idem x
  · exact toNumericCell_idem x
  · exact titleCell_titleCell x
  · exact titleCell_titleCell x
  · exact titleCell_titleCell x
  · exact zipNumCell_idem 4 x
  · exact phoneCell_idem x
  · exact toDatetimeCell_idem x

theorem ffsAll_cons : ∀ o ∈ genericOps ++ ffsOps,
    keyConsistent (genericOps ++ ffsOps) o.c o.f := by
  intro o ho o2 ho2 he
  simp only [List.mem_append, genericOps, ffsOps, List.mem_cons, List.not_mem_nil, or_false] at ho ho2
  rcases ho with (rfl|rfl|rfl|rfl|rfl|rfl|rfl) | (rfl|rfl|rfl|rfl|rfl|rfl) <;>
    rcases ho2 with (rfl|rfl|rfl|rfl|rfl|rfl|rfl) | (rfl|rfl|rfl|rfl|rfl|rfl) <;>
      first
      | rfl
      | exact absurd he (by decide)

theorem ffsAll_eq (t : Table) :
    ffsSteps (genericSteps t) = applyMOps (genericOps ++ ffsOps) t := by
  rw [applyMOps_append, genericSteps_eq, ffsSteps_eq]

theorem ffsAll_idem_t (t : Table) :
    ffsSteps (genericSteps (ffsSteps (genericSteps t))) = ffsSteps (genericSteps t) := by
  rw [ffsAll_eq t, ffsAll_eq]
  exact applyMOps_idem ffsAll_idem ffsAll_cons t


theorem sudCommonAll_idem : ∀ o ∈ genericOps ++ sudCommonOps, ∀ x, o.f (o.f x) = o.f x := by
  intro o ho x
  simp only [List.mem_append, genericOps, sudCommonOps, List.mem_cons, List.not_mem_nil, or_false] at ho
  rcases ho with (rfl|rfl|rfl|rfl|rfl|rfl|rfl) | (rfl|rfl|rfl|rfl)
  · exact titleCell_titleCell x
  · exact titleCell_titleCell x
  · exact zfill5StrCell_idem x
  · exact zipNumCell_idem 5 x
  · exact zipNumCell_idem 5 x
  · exact toNumericCell_idem x
  · exact toNumericCell_idem x
  · exact zipNumCell_idem 2 x
  · exact toDatetimeCell_idem x
  · exact titleCell_titleCell x
  · exact titleCell_titleCell x

theorem sudCommonAll_cons : ∀ o ∈ genericOps ++ sudCommonOps,
    keyConsistent (genericOps ++ sudCommonOps) o.c o.f := by
  intro o ho o2 ho2 he
  simp only [List.mem_append, genericOps, sudCommonOps, List.mem_cons, List.not_mem_nil, or_false] at ho ho2
  rcases ho with (rfl|rfl|rfl|rfl|rfl|rfl|rfl) | (rfl|rfl|rfl|rfl) <;>
    rcases ho2 with (rfl|rfl|rfl|rfl|rfl|rfl|rfl) | (rfl|rfl|rfl|rfl) <;>
      first
      | rfl
      | exact absurd he (by decide)

theorem sudCommonAll_eq (t : Table) :
    sudCommon (genericSteps t) = applyMOps (genericOps ++ sudCommonOps) t := by
  rw [applyMOps_append, genericSteps_eq, sudCommon_eq]

theorem sudCommonAll_idem_t (t : Table) :
    sudCommon (genericSteps (sudCommon (genericSteps t))) = sudCommon (genericSteps t) := by
  rw [sudCommonAll_eq t, sudCommonAll_eq]
  exact applyMOps_idem sudCommonAll_idem sudCommonAll_cons t


theorem coreAll_idem : ∀ o ∈ genericOps ++ coreOps, ∀ x, o.f (o.f x) = o.f x := by
  intro o ho x
  simp only [List.mem_append, genericOps, coreOps, List.mem_cons, List.not_mem_nil, or_false] at ho
  rcases ho with (rfl|rfl|rfl|rfl|rfl|rfl|rfl) | (rfl|rfl|rfl)
  · exact titleCell_titleCell x
  · exact titleCell_titleCell x
  · exact zfill5StrCell_idem x
  · exact zipNumCell_idem 5 x
  · exact zipNumCell_idem 5 x
  · exact toNumericCell_idem x
  · exact toNumericCell_idem x
  · exact rstripPctCell_idem x
  · exact stripCommasCell_idem x
  · exact stripCommasCell_idem x

theorem coreAll_cons : ∀ o ∈ genericOps ++ coreOps,
    keyConsistent (genericOps ++ coreOps) o.c o.f := by
  intro o ho o2 ho2 he
  simp only [List.mem_append, genericOps, coreOps, List.mem_cons, List.not_mem_nil, or_false] at ho ho2
  rcases ho with (rfl|rfl|rfl|rfl|rfl|rfl|rfl) | (rfl|rfl|rfl) <;>
    rcases ho2 with (rfl|rfl|rfl|rfl|rfl|rfl|rfl) | (rfl|rfl|rfl) <;>
      first
      | rfl
      | exact absurd he (by decide)

theorem coreAll_eq (t : Table) :
    coreSetSteps (genericSteps t) = applyMOps (genericOps ++ coreOps) t := by
  rw [applyMOps_append, genericSteps_eq, coreSetSteps_eq]

theorem coreAll_idem_t (t : Table) :
    coreSetSteps (genericSteps (coreSetSteps (genericSteps t))) = coreSetSteps (genericSteps t) := by
  rw [coreAll_eq t, coreAll_eq]
  exact applyMOps_idem coreAll_idem coreAll_cons t


theorem matAll_idem : ∀ o ∈ genericOps ++ matOps, ∀ x, o.f (o.f x) = o.f x := by
  intro o ho x
  simp only [List.mem_append, genericOps, matOps, List.mem_cons, List.not_mem_nil, or_false] at ho
  rcases ho with (rfl|rfl|rfl|rfl|rfl|rfl|rfl) | (rfl|rfl)
  · exact titleCell_titleCell x
  · exact titleCell_titleCell x
  · exact zfill5StrCell_idem x
  · exact zipNumCell_idem 5 x
  · exact zipNumCell_idem 5 x
  · exact toNumericCell_idem x
  · exact toNumericCell_idem x
  · exact toNumericCell_idem x
  · exact strCastCell_idem x

theorem matAll_cons : ∀ o ∈ genericOps ++ matOps,
    keyConsistent (genericOps ++ matOps) o.c o.f := by
  intro o ho o2 ho2 he
  simp only [List.mem_append, genericOps, matOps, List.mem_cons, List.not_mem_nil, or_false] at ho ho2
  rcases ho with (rfl|rfl|rfl|rfl|rfl|rfl|rfl) | (rfl|rfl) <;>
    rcases ho2 with (rfl|rfl|rfl|rfl|rfl|rfl|rfl) | (rfl|rfl) <;>
      first
      | rfl
      | exact absurd he (by decide)

theorem matAll_eq (t : Table) :
    matSteps (genericSteps t) = applyMOps (genericOps ++ matOps) t := by
  rw [applyMOps_append, genericSteps_eq, matSteps_eq]

theorem matAll_idem_t (t : Table) :
    matSteps (genericSteps (matSteps (genericSteps t))) = matSteps (genericSteps t) := by
  rw [matAll_eq t, matAll_eq]
  exact applyMOps_idem matAll_idem matAll_cons t


theorem fosterNumAll_idem : ∀ o ∈ genericOps ++ fosterNumOps, ∀ x, o.f (o.f x) = o.f x := by
  intro o ho x
  simp only [List.mem_append, genericOps, fosterNumOps, List.mem_cons, List.not_mem_nil, or_false] at ho
  rcases ho with (rfl|rfl|rfl|rfl|rfl|rfl|rfl) | (rfl|rfl|rfl)
  · exact titleCell_titleCell x
  · exact titleCell_titleCell x
  · exact zfill5StrCell_idem x
  · exact zipNumCell_idem 5 x
  · exact zipNumCell_idem 5 x
  · exact toNumericCell_idem x
  · exact toNumericCell_idem x
  · exact toNumericCell_idem x
  · exact toNumericCell_idem x
  · exact toNumericCell_idem x

theorem fosterNumAll_cons : ∀ o ∈ genericOps ++ fosterNumOps,
    keyConsistent (genericOps ++ fosterNumOps) o.c o.f := by
  intro o ho o2 ho2 he
  simp only [List.mem_append, genericOps, fosterNumOps, List.mem_cons, List.not_mem_nil, or_false] at ho ho2
  rcases ho with (rfl|rfl|rfl|rfl|rfl|rfl|rfl) | (rfl|rfl|rfl) <;>
    rcases ho2 with (rfl|rfl|rfl|rfl|rfl|rfl|rfl) | (rfl|rfl|rfl) <;>
      first
      | rfl
      | exact absurd he (by decide)

theorem fosterNumAll_eq (t : Table) :
    fosterNumerics (genericSteps t) = applyMOps (genericOps ++ fosterNumOps) t := by
  rw [applyMOps_append, genericSteps_eq, fosterNumerics_eq]

theorem fosterNumAll_idem_t (t : Table) :
    fosterNumerics (genericSteps (fosterNumerics (genericSteps t))) = fosterNumerics (genericSteps t) := by
  rw [fosterNumAll_eq t, fosterNumAll_eq]
  exact applyMOps_idem fosterNumAll_idem fosterNumAll_cons t

/- ----- fixpoint machinery for pipelines with derived columns ----- -/

theorem applyMOps_fix {L : List MOp} {S : Table} (h : ∀ o ∈ L, mapCol o.c o.f S = S) :
    applyMOps L S = S := by
  induction L with
  | nil => rfl
  | cons o L ih =>
    rw [applyMOps_cons, h o (List.mem_cons_self o L)]
    exact ih (fun o2 h2 => h o2 (List.mem_cons_of_mem o h2))

theorem getColCells_applyMOps_ne {L : List MOp} {c : String} (h : ∀ o ∈ L, o.c ≠ c)
    (t : Table) : getColCells (applyMOps L t) c = getColCells t c := by
  induction L generalizing t with
  | nil => rfl
  | cons o L ih =>
    rw [applyMOps_cons, ih (fun o2 h2 => h o2 (List.mem_cons_of_mem o h2))]
    exact getColCells_mapCol_ne o.f t (fun he => h o (List.mem_cons_self o L) he.symm)

theorem depCells_applyMOps_ne {L : List MOp} {deps : List String}
    (h : ∀ o ∈ L, o.c ∉ deps) (t : Table) :
    depCells (applyMOps L t) deps = depCells t deps := by
  induction L generalizing t with
  | nil => rfl
  | cons o L ih =>
    rw [applyMOps_cons, ih (fun o2 h2 => h o2 (List.mem_cons_of_mem o h2))]
    exact depCells_mapCol_ne o.f t (h o (List.mem_cons_self o L))

theorem getColCells_applyMOps_fixed {c : String} {f : Cell → Cell}
    (hidem : ∀ x, f (f x) = f x) :
    ∀ L : List MOp, MOp.mk c f ∈ L → keyConsistent L c f →
      ∀ {t : Table}, t.WF → c ∈ t.cols →
      ∀ x ∈ getColCells (applyMOps L t) c, f x = x := by
  intro L
  induction L with
  | nil => intro hmem _ t _ _ x _; exact absurd hmem (List.not_mem_nil _)
  | cons o L ih =>
    intro hmem hcons t hwf hc x hx
    rw [applyMOps_cons] at hx
    by_cases hoc : o.c = c
    · have hof : o.f = f := hcons o (List.mem_cons_self o L) hoc
      by_cases hmem2 : MOp.mk c f ∈ L
      · exact ih hmem2 (fun o2 h2 => hcons o2 (List.mem_cons_of_mem o h2))
          (WF_mapCol _ _ hwf) (by rw [cols_mapCol]; exact hc) x hx
      · have hnk : ∀ o2 ∈ L, o2.c ≠ c := by
          intro o2 h2 he
          have hf2 : o2.f = f := hcons o2 (List.mem_cons_of_mem o h2) he
          apply hmem2
          have ho2 : o2 = MOp.mk c f := by
            obtain ⟨c2, f2⟩ := o2
            simp only at he hf2
            rw [he, hf2]
          rw [← ho2]
          exact h2
        rw [getColCells_applyMOps_ne hnk] at hx
        rw [hoc, hof] at hx
        rw [getColCells_mapCol_self f hwf hc] at hx
        rcases List.mem_map.mp hx with ⟨y, _, rfl⟩
        exact hidem y
    · have hmem2 : MOp.mk c f ∈ L := by
        rcases List.mem_cons.mp hmem with h1 | h2
        · exact absurd (congrArg MOp.c h1).symm hoc
        · exact h2
      exact ih hmem2 (fun o2 h2 => hcons o2 (List.mem_cons_of_mem o h2))
        (WF_mapCol _ _ hwf) (by rw [cols_mapCol]; exact hc) x hx

/- ----- normalize specialisations per dataset key ----- -/

theorem normalize_ffs (t : Table) : normalize keyFfs t = ffsSteps (genericSteps t) := by
  simp [normalize, keyFfs, keyAcs, keyFoster, keySud, keySudGeo, keyCoreSet,
    keyMatAnnual, keyMatQuarterly]

theorem normalize_acs (t : Table) : normalize keyAcs t = acsSteps (genericSteps t) := by
  simp [normalize, keyFfs, keyAcs, keyFoster, keySud, keySudGeo, keyCoreSet,
    keyMatAnnual, keyMatQuarterly]

theorem normalize_foster (t : Table) :
    normalize keyFoster t = fosterDerive (fosterNumerics (fosterHeader (genericSteps t))) := by
  simp [normalize, keyFfs, keyAcs, keyFoster, keySud, keySudGeo, keyCoreSet,
    keyMatAnnual, keyMatQuarterly]

theorem normalize_sud (t : Table) :
    normalize keySud t = sudDerive (sudCommon (genericSteps t)) := by
  simp [normalize, keyFfs, keyAcs, keyFoster, keySud, keySudGeo, keyCoreSet,
    keyMatAnnual, keyMatQuarterly]

theorem normalize_sudGeo (t : Table) :
    normalize keySudGeo t = sudCommon (genericSteps t) := by
  simp [normalize, keyFfs, keyAcs, keyFoster, keySud, keySudGeo, keyCoreSet,
    keyMatAnnual, keyMatQuarterly]

theorem normalize_core (t : Table) :
    normalize keyCoreSet t = coreSetSteps (genericSteps t) := by
  simp [normalize, keyFfs, keyAcs, keyFoster, keySud, keySudGeo, keyCoreSet,
    keyMatAnnual, keyMatQuarterly]

theorem normalize_matA (t : Table) :
    normalize keyMatAnnual t = matSteps (genericSteps t) := by
  simp [normalize, keyFfs, keyAcs, keyFoster, keySud, keySudGeo, keyCoreSet,
    keyMatAnnual, keyMatQuarterly]

theorem normalize_matQ (t : Table) :
    normalize keyMatQuarterly t = matSteps (genericSteps t) := by
  simp [normalize, keyFfs, keyAcs, keyFoster, keySud, keySudGeo, keyCoreSet,
    keyMatAnnual, keyMatQuarterly]

theorem normalize_default {key : String} (t : Table)
    (h1 : key ≠ keyFfs) (h2 : key ≠ keyAcs) (h3 : key ≠ keyFoster) (h4 : key ≠ keySud)
    (h5 : key ≠ keySudGeo) (h6 : key ≠ keyCoreSet) (h7 : key ≠ keyMatAnnual)
    (h8 : key ≠ keyMatQuarterly) : normalize key t = genericSteps t := by
  simp [normalize, h1, h2, h3, h4, h5, h6, h7, h8]

/- ----- further deriveCol helpers ----- -/

theorem mem_cols_deriveCol_self {reqs : List String} {c : String} {deps : List String}
    {g : List Cell → Cell} {t : Table} (hreq : reqsOk reqs t) :
    c ∈ (deriveCol reqs c deps g t).cols := by
  by_cases hc : c ∈ t.cols
  · rw [deriveCol_overwrite hreq hc]; exact hc
  · rw [deriveCol_append hreq hc]; simp

theorem mem_cols_deriveCol_keep {reqs : List String} {c x : String} {deps : List String}
    {g : List Cell → Cell} {t : Table} (hx : x ∈ t.cols) :
    x ∈ (deriveCol reqs c deps g t).cols := by
  by_cases he : x = c
  · subst he
    by_cases hreq : reqsOk reqs t
    · exact mem_cols_deriveCol_self hreq
    · rw [deriveCol_not_reqs hreq]; exact hx
  · exact (mem_cols_deriveCol_of_ne he).mpr hx

theorem reqsOk_deriveCol_iff {reqs' reqs : List String} {c : String} {deps : List String}
    {g : List Cell → Cell} {t : Table} (h : ∀ d ∈ reqs', d ≠ c) :
    reqsOk reqs' (deriveCol reqs c deps g t) ↔ reqsOk reqs' t := by
  unfold reqsOk
  constructor
  · intro hh d hd
    exact (mem_cols_deriveCol_of_ne (h d hd)).mp (hh d hd)
  · intro hh d hd
    exact (mem_cols_deriveCol_of_ne (h d hd)).mpr (hh d hd)

/- ----- idempotence of the sud pipeline ----- -/

theorem sudDerive_eq (u : Table) :
    sudDerive u
    = deriveCol [colTotalCap] colLargeFacility [colTotalCap] sudG3
        (deriveCol [colExpirationDate] colExpirationYear [colExpirationDate] sudG2
          (deriveCol [colTreatmentCap, colTotalCap] colCapUtil
            [colTreatmentCap, colTotalCap] sudG1 u)) := rfl

theorem WF_sudDerive {u : Table} (hwfu : u.WF) : (sudDerive u).WF := by
  rw [sudDerive_eq]
  exact WF_deriveCol _ _ _ _ (WF_deriveCol _ _ _ _ (WF_deriveCol _ _ _ _ hwfu))

theorem sud_mapfix {t : Table} (hwf : t.WF) {c : String} {f : Cell → Cell}
    (hmem : MOp.mk c f ∈ genericOps ++ sudCommonOps)
    (hidem : ∀ x, f (f x) = f x)
    (h1 : c ≠ colCapUtil) (h2 : c ≠ colExpirationYear) (h3 : c ≠ colLargeFacility) :
    mapCol c f (sudDerive (applyMOps (genericOps ++ sudCommonOps) t))
    = sudDerive (applyMOps (genericOps ++ sudCommonOps) t) := by
  have hwfu : (applyMOps (genericOps ++ sudCommonOps) t).WF := WF_applyMOps _ hwf
  have hwf1 : (deriveCol [colTreatmentCap, colTotalCap] colCapUtil
      [colTreatmentCap, colTotalCap] sudG1 (applyMOps (genericOps ++ sudCommonOps) t)).WF :=
    WF_deriveCol _ _ _ _ hwfu
  have hwf2 : (deriveCol [colExpirationDate] colExpirationYear [colExpirationDate] sudG2
      (deriveCol [colTreatmentCap, colTotalCap] colCapUtil
        [colTreatmentCap, colTotalCap] sudG1 (applyMOps (genericOps ++ sudCommonOps) t))).WF :=
    WF_deriveCol _ _ _ _ hwf1
  by_cases hcu : c ∈ t.cols
  · apply mapCol_eq_self
    intro x hx
    have hcells : getColCells (sudDerive (applyMOps (genericOps ++ sudCommonOps) t)) c
        = getColCells (applyMOps (genericOps ++ sudCommonOps) t) c := by
      rw [sudDerive_eq,
        getColCells_deriveCol_ne hwf2 h3, getColCells_deriveCol_ne hwf1 h2,
        getColCells_deriveCol_ne hwfu h1]
    rw [hcells] at hx
    exact getColCells_applyMOps_fixed hidem _ hmem (sudCommonAll_cons ⟨c, f⟩ hmem) hwf hcu x hx
  · apply mapCol_of_not_mem
    rw [sudDerive_eq]
    intro hcS
    exact hcu (by
      rwa [mem_cols_deriveCol_of_ne h3, mem_cols_deriveCol_of_ne h2,
        mem_cols_deriveCol_of_ne h1, cols_applyMOps] at hcS)

theorem sud_stepA {t : Table} (hwf : t.WF) :
    applyMOps (genericOps ++ sudCommonOps)
      (sudDerive (applyMOps (genericOps ++ sudCommonOps) t))
    = sudDerive (applyMOps (genericOps ++ sudCommonOps) t) := by
  apply applyMOps_fix
  intro o ho
  have ho' := ho
  simp only [List.mem_append, genericOps, sudCommonOps, List.mem_cons,
    List.not_mem_nil, or_false] at ho'
  rcases ho' with (rfl | rfl | rfl | rfl | rfl | rfl | rfl) | (rfl | rfl | rfl | rfl) <;>
    first
    | exact sud_mapfix hwf ho (fun x => titleCell_titleCell x) (by decide) (by decide) (by decide)
    | exact sud_mapfix hwf ho (fun x => zfill5StrCell_idem x) (by decide) (by decide) (by decide)
    | exact sud_mapfix hwf ho (fun x => zipNumCell_idem 5 x) (by decide) (by decide) (by decide)
    | exact sud_mapfix hwf ho (fun x => zipNumCell_idem 2 x) (by decide) (by decide) (by decide)
    | exact sud_mapfix hwf ho (fun x => toNumericCell_idem x) (by decide) (by decide) (by decide)
    | exact sud_mapfix hwf ho (fun x => toDatetimeCell_idem x) (by decide) (by decide) (by decide)

theorem sud_D1_fix {u : Table} (hwfu : u.WF) :
    deriveCol [colTreatmentCap, colTotalCap] colCapUtil [colTreatmentCap, colTotalCap] sudG1
      (sudDerive u) = sudDerive u := by
  have hwf1 : (deriveCol [colTreatmentCap, colTotalCap] colCapUtil
      [colTreatmentCap, colTotalCap] sudG1 u).WF := WF_deriveCol _ _ _ _ hwfu
  have hwf2 : (deriveCol [colExpirationDate] colExpirationYear [colExpirationDate] sudG2
      (deriveCol [colTreatmentCap, colTotalCap] colCapUtil
        [colTreatmentCap, colTotalCap] sudG1 u)).WF := WF_deriveCol _ _ _ _ hwf1
  by_cases hreq : reqsOk [colTreatmentCap, colTotalCap] (sudDerive u)
  · have hreq_u : reqsOk [colTreatmentCap, colTotalCap] u := by
      intro d hd
      have hdS := hreq d hd
      simp only [List.mem_cons, List.not_mem_nil, or_false] at hd
      rcases hd with rfl | rfl <;>
        · rw [sudDerive_eq, mem_cols_deriveCol_of_ne (by decide),
            mem_cols_deriveCol_of_ne (by decide), mem_cols_deriveCol_of_ne (by decide)] at hdS
          exact hdS
    have hmemCap : colCapUtil ∈ (sudDerive u).cols := by
      rw [sudDerive_eq, mem_cols_deriveCol_of_ne (by decide),
        mem_cols_deriveCol_of_ne (by decide)]
      exact mem_cols_deriveCol_self hreq_u
    have e1 : getColCells (sudDerive u) colCapUtil
        = u.rows.map (fun r => sudG1 (rowVals u [colTreatmentCap, colTotalCap] r)) := by
      rw [sudDerive_eq, getColCells_deriveCol_ne hwf2 (by decide),
        getColCells_deriveCol_ne hwf1 (by decide), getColCells_deriveCol_self hwfu hreq_u]
    have e2 : depCells (sudDerive u) [colTreatmentCap, colTotalCap]
        = depCells u [colTreatmentCap, colTotalCap] := by
      rw [sudDerive_eq, depCells_deriveCol_ne hwf2 (by decide),
        depCells_deriveCol_ne hwf1 (by decide), depCells_deriveCol_ne hwfu (by decide)]
    have e3 : (sudDerive u).rows.map
          (fun r => sudG1 (rowVals (sudDerive u) [colTreatmentCap, colTotalCap] r))
        = (sudDerive u).rows.map (fun r => rowCell (sudDerive u) r colCapUtil) := by
      have l1 : (sudDerive u).rows.map
            (fun r => sudG1 (rowVals (sudDerive u) [colTreatmentCap, colTotalCap] r))
          = (depCells (sudDerive u) [colTreatmentCap, colTotalCap]).map sudG1 := by
        unfold depCells
        rw [List.map_map]
        rfl
      have l2 : (depCells u [colTreatmentCap, colTotalCap]).map sudG1
          = u.rows.map (fun r => sudG1 (rowVals u [colTreatmentCap, colTotalCap] r)) := by
        unfold depCells
        rw [List.map_map]
        rfl
      rw [l1, e2, l2, ← e1]
      rfl
    exact deriveCol_eq_self hreq hmemCap (fun r hr => List.map_eq_map_iff.mp e3 r hr)
  · exact deriveCol_not_reqs hreq

theorem sud_D2_fix {u : Table} (hwfu : u.WF) :
    deriveCol [colExpirationDate] colExpirationYear [colExpirationDate] sudG2
      (sudDerive u) = sudDerive u := by
  have hwf1 : (deriveCol [colTreatmentCap, colTotalCap] colCapUtil
      [colTreatmentCap, colTotalCap] sudG1 u).WF := WF_deriveCol _ _ _ _ hwfu
  have hwf2 : (deriveCol [colExpirationDate] colExpirationYear [colExpirationDate] sudG2
      (deriveCol [colTreatmentCap, colTotalCap] colCapUtil
        [colTreatmentCap, colTotalCap] sudG1 u)).WF := WF_deriveCol _ _ _ _ hwf1
  by_cases hreq : reqsOk [colExpirationDate] (sudDerive u)
  · have hreq_1 : reqsOk [colExpirationDate]
        (deriveCol [colTreatmentCap, colTotalCap] colCapUtil
          [colTreatmentCap, colTotalCap] sudG1 u) := by
      intro d hd
      have hdS := hreq d hd
      simp only [List.mem_cons, List.not_mem_nil, or_false] at hd
      rcases hd with rfl
      rw [sudDerive_eq, mem_cols_deriveCol_of_ne (by decide),
        mem_cols_deriveCol_of_ne (by decide)] at hdS
      exact hdS
    have hmemY : colExpirationYear ∈ (sudDerive u).cols := by
      rw [sudDerive_eq, mem_cols_deriveCol_of_ne (by decide)]
      exact mem_cols_deriveCol_self hreq_1
    have e1 : getColCells (sudDerive u) colExpirationYear
        = (deriveCol [colTreatmentCap, colTotalCap] colCapUtil
            [colTreatmentCap, colTotalCap] sudG1 u).rows.map
          (fun r => sudG2 (rowVals (deriveCol [colTreatmentCap, colTotalCap] colCapUtil
            [colTreatmentCap, colTotalCap] sudG1 u) [colExpirationDate] r)) := by
      rw [sudDerive_eq, getColCells_deriveCol_ne hwf2 (by decide),
        getColCells_deriveCol_self hwf1 hreq_1]
    have e2 : depCells (sudDerive u) [colExpirationDate]
        = depCells (deriveCol [colTreatmentCap, colTotalCap] colCapUtil
            [colTreatmentCap, colTotalCap] sudG1 u) [colExpirationDate] := by
      rw [sudDerive_eq, depCells_deriveCol_ne hwf2 (by decide),
        depCells_deriveCol_ne hwf1 (by decide)]
    have e3 : (sudDerive u).rows.map
          (fun r => sudG2 (rowVals (sudDerive u) [colExpirationDate] r))
        = (sudDerive u).rows.map (fun r => rowCell (sudDerive u) r colExpirationYear) := by
      have l1 : (sudDerive u).rows.map
            (fun r => sudG2 (rowVals (sudDerive u) [colExpirationDate] r))
          = (depCells (sudDerive u) [colExpirationDate]).map sudG2 := by
        unfold depCells
        rw [List.map_map]
        rfl
      have l2 : (depCells (deriveCol [colTreatmentCap, colTotalCap] colCapUtil
            [colTreatmentCap, colTotalCap] sudG1 u) [colExpirationDate]).map sudG2
          = (deriveCol [colTreatmentCap, colTotalCap] colCapUtil
            [colTreatmentCap, colTotalCap] sudG1 u).rows.map
            (fun r => sudG2 (rowVals (deriveCol [colTreatmentCap, colTotalCap] colCapUtil
              [colTreatmentCap, colTotalCap] sudG1 u) [colExpirationDate] r)) := by
        unfold depCells
        rw [List.map_map]
        rfl
      rw [l1, e2, l2, ← e1]
      rfl
    exact deriveCol_eq_self hreq hmemY (fun r hr => List.map_eq_map_iff.mp e3 r hr)
  · exact deriveCol_not_reqs hreq

theorem sud_D3_fix {u : Table} (hwfu : u.WF) :
    deriveCol [colTotalCap] colLargeFacility [colTotalCap] sudG3
      (sudDerive u) = sudDerive u := by
  have hwf1 : (deriveCol [colTreatmentCap, colTotalCap] colCapUtil
      [colTreatmentCap, colTotalCap] sudG1 u).WF := WF_deriveCol _ _ _ _ hwfu
  have hwf2 : (deriveCol [colExpirationDate] colExpirationYear [colExpirationDate] sudG2
      (deriveCol [colTreatmentCap, colTotalCap] colCapUtil
        [colTreatmentCap, colTotalCap] sudG1 u)).WF := WF_deriveCol _ _ _ _ hwf1
  by_cases hreq : reqsOk [colTotalCap] (sudDerive u)
  · have hreq_2 : reqsOk [colTotalCap]
        (deriveCol [colExpirationDate] colExpirationYear [colExpirationDate] sudG2
          (deriveCol [colTreatmentCap, colTotalCap] colCapUtil
            [colTreatmentCap, colTotalCap] sudG1 u)) := by
      intro d hd
      have hdS := hreq d hd
      simp only [List.mem_cons, List.not_mem_nil, or_false] at hd
      rcases hd with rfl
      rw [sudDerive_eq, mem_cols_deriveCol_of_ne (by decide)] at hdS
      exact hdS
    have hmemL : colLargeFacility ∈ (sudDerive u).cols := by
      rw [sudDerive_eq]
      exact mem_cols_deriveCol_self hreq_2
    have e1 : getColCells (sudDerive u) colLargeFacility
        = (deriveCol [colExpirationDate] colExpirationYear [colExpirationDate] sudG2
            (deriveCol [colTreatmentCap, colTotalCap] colCapUtil
              [colTreatmentCap, colTotalCap] sudG1 u)).rows.map
          (fun r => sudG3 (rowVals (deriveCol [colExpirationDate] colExpirationYear
            [colExpirationDate] sudG2 (deriveCol [colTreatmentCap, colTotalCap] colCapUtil
              [colTreatmentCap, colTotalCap] sudG1 u)) [colTotalCap] r)) := by
      rw [sudDerive_eq, getColCells_deriveCol_self hwf2 hreq_2]
    have e2 : depCells (sudDerive u) [colTotalCap]
        = depCells (deriveCol [colExpirationDate] colExpirationYear [colExpirationDate] sudG2
            (deriveCol [colTreatmentCap, colTotalCap] colCapUtil
              [colTreatmentCap, colTotalCap] sudG1 u)) [colTotalCap] := by
      rw [sudDerive_eq, depCells_deriveCol_ne hwf2 (by decide)]
    have e3 : (sudDerive u).rows.map
          (fun r => sudG3 (rowVals (sudDerive u) [colTotalCap] r))
        = (sudDerive u).rows.map (fun r => rowCell (sudDerive u) r colLargeFacility) := by
      have l1 : (sudDerive u).rows.map
            (fun r => sudG3 (rowVals (sudDerive u) [colTotalCap] r))
          = (depCells (sudDerive u) [colTotalCap]).map sudG3 := by
        unfold depCells
        rw [List.map_map]
        rfl
      have l2 : (depCells (deriveCol [colExpirationDate] colExpirationYear [colExpirationDate]
            sudG2 (deriveCol [colTreatmentCap, colTotalCap] colCapUtil
              [colTreatmentCap, colTotalCap] sudG1 u)) [colTotalCap]).map sudG3
          = (deriveCol [colExpirationDate] colExpirationYear [colExpirationDate] sudG2
              (deriveCol [colTreatmentCap, colTotalCap] colCapUtil
                [colTreatmentCap, colTotalCap] sudG1 u)).rows.map
            (fun r => sudG3 (rowVals (deriveCol [colExpirationDate] colExpirationYear
              [colExpirationDate] sudG2 (deriveCol [colTreatmentCap, colTotalCap] colCapUtil
                [colTreatmentCap, colTotalCap] sudG1 u)) [colTotalCap] r)) := by
        unfold depCells
        rw [List.map_map]
        rfl
      rw [l1, e2, l2, ← e1]
      rfl
    exact deriveCol_eq_self hreq hmemL (fun r hr => List.map_eq_map_iff.mp e3 r hr)
  · exact deriveCol_not_reqs hreq

theorem sud_stepB {u : Table} (hwfu : u.WF) :
    sudDerive (sudDerive u) = sudDerive u := by
  rw [sudDerive_eq (sudDerive u)]
  rw [sud_D1_fix hwfu, sud_D2_fix hwfu, sud_D3_fix hwfu]

theorem normalize_sud_idem {t : Table} (hwf : t.WF) :
    normalize keySud (normalize keySud t) = normalize keySud t := by
  rw [normalize_sud t, normalize_sud, sudCommonAll_eq t, sudCommonAll_eq,
    sud_stepA hwf, sud_stepB (WF_applyMOps _ hwf)]

/- ----- idempotence of the foster pipeline (marker column present) ----- -/

theorem fosterDerive_eq (u : Table) :
    fosterDerive u
    = deriveCol [colPctChange] colChangeFlag [colPctChange] fosterG3
        (mapCol colPctChange parse_percentage
          (deriveCol [colNumerator, colDenominator] colRate
            [colNumerator, colDenominator] fosterG1 u)) := rfl

theorem WF_fosterDerive {u : Table} (hwfu : u.WF) : (fosterDerive u).WF := by
  rw [fosterDerive_eq]
  exact WF_deriveCol _ _ _ _ (WF_mapCol _ _ (WF_deriveCol _ _ _ _ hwfu))

theorem foster_mapfix {t : Table} (hwf : t.WF) {c : String} {f : Cell → Cell}
    (hmem : MOp.mk c f ∈ genericOps ++ fosterNumOps)
    (hidem : ∀ x, f (f x) = f x)
    (h1 : c ≠ colRate) (h2 : c ≠ colPctChange) (h3 : c ≠ colChangeFlag) :
    mapCol c f (fosterDerive (applyMOps (genericOps ++ fosterNumOps) t))
    = fosterDerive (applyMOps (genericOps ++ fosterNumOps) t) := by
  have hwfu : (applyMOps (genericOps ++ fosterNumOps) t).WF := WF_applyMOps _ hwf
  have hwf1 : (deriveCol [colNumerator, colDenominator] colRate
      [colNumerator, colDenominator] fosterG1 (applyMOps (genericOps ++ fosterNumOps) t)).WF :=
    WF_deriveCol _ _ _ _ hwfu
  have hwfM : (mapCol colPctChange parse_percentage
      (deriveCol [colNumerator, colDenominator] colRate
        [colNumerator, colDenominator] fosterG1
          (applyMOps (genericOps ++ fosterNumOps) t))).WF := WF_mapCol _ _ hwf1
  by_cases hcu : c ∈ t.cols
  · apply mapCol_eq_self
    intro x hx
    have hcells : getColCells (fosterDerive (applyMOps (genericOps ++ fosterNumOps) t)) c
        = getColCells (applyMOps (genericOps ++ fosterNumOps) t) c := by
      rw [fosterDerive_eq, getColCells_deriveCol_ne hwfM h3,
        getColCells_mapCol_ne parse_percentage _ h2, getColCells_deriveCol_ne hwfu h1]
    rw [hcells] at hx
    exact getColCells_applyMOps_fixed hidem _ hmem (fosterNumAll_cons ⟨c, f⟩ hmem) hwf hcu x hx
  · apply mapCol_of_not_mem
    rw [fosterDerive_eq]
    intro hcS
    rw [mem_cols_deriveCol_of_ne h3, cols_mapCol,
      mem_cols_deriveCol_of_ne h1, cols_applyMOps] at hcS
    exact hcu hcS

theorem foster_stepA {t : Table} (hwf : t.WF) :
    applyMOps (genericOps ++ fosterNumOps)
      (fosterDerive (applyMOps (genericOps ++ fosterNumOps) t))
    = fosterDerive (applyMOps (genericOps ++ fosterNumOps) t) := by
  apply applyMOps_fix
  intro o ho
  have ho' := ho
  simp only [List.mem_append, genericOps, fosterNumOps, List.mem_cons,
    List.not_mem_nil, or_false] at ho'
  rcases ho' with (rfl | rfl | rfl | rfl | rfl | rfl | rfl) | (rfl | rfl | rfl) <;>
    first
    | exact foster_mapfix hwf ho (fun x => titleCell_titleCell x) (by decide) (by decide) (by decide)
    | exact foster_mapfix hwf ho (fun x => zfill5StrCell_idem x) (by decide) (by decide) (by decide)
    | exact foster_mapfix hwf ho (fun x => zipNumCell_idem 5 x) (by decide) (by decide) (by decide)
    | exact foster_mapfix hwf ho (fun x => toNumericCell_idem x) (by decide) (by decide) (by decide)

theorem foster_D1_fix {u : Table} (hwfu : u.WF) :
    deriveCol [colNumerator, colDenominator] colRate [colNumerator, colDenominator] fosterG1
      (fosterDerive u) = fosterDerive u := by
  have hwf1 : (deriveCol [colNumerator, colDenominator] colRate
      [colNumerator, colDenominator] fosterG1 u).WF := WF_deriveCol _ _ _ _ hwfu
  have hwfM : (mapCol colPctChange parse_percentage
      (deriveCol [colNumerator, colDenominator] colRate
        [colNumerator, colDenominator] fosterG1 u)).WF := WF_mapCol _ _ hwf1
  by_cases hreq : reqsOk [colNumerator, colDenominator] (fosterDerive u)
  · have hreq_u : reqsOk [colNumerator, colDenominator] u := by
      intro d hd
      have hdS := hreq d hd
      simp only [List.mem_cons, List.not_mem_nil, or_false] at hd
      rcases hd with rfl | rfl <;>
        · rw [fosterDerive_eq, mem_cols_deriveCol_of_ne (by decide), cols_mapCol,
            mem_cols_deriveCol_of_ne (by decide)] at hdS
          exact hdS
    have hmemR : colRate ∈ (fosterDerive u).cols := by
      rw [fosterDerive_eq, mem_cols_deriveCol_of_ne (by decide), cols_mapCol]
      exact mem_cols_deriveCol_self hreq_u
    have e1 : getColCells (fosterDerive u) colRate
        = u.rows.map (fun r => fosterG1 (rowVals u [colNumerator, colDenominator] r)) := by
      rw [fosterDerive_eq, getColCells_deriveCol_ne hwfM (by decide),
        getColCells_mapCol_ne parse_percentage _ (by decide),
        getColCells_deriveCol_self hwfu hreq_u]
    have e2 : depCells (fosterDerive u) [colNumerator, colDenominator]
        = depCells u [colNumerator, colDenominator] := by
      rw [fosterDerive_eq, depCells_deriveCol_ne hwfM (by decide),
        depCells_mapCol_ne parse_percentage _ (by decide),
        depCells_deriveCol_ne hwfu (by decide)]
    have e3 : (fosterDerive u).rows.map
          (fun r => fosterG1 (rowVals (fosterDerive u) [colNumerator, colDenominator] r))
        = (fosterDerive u).rows.map (fun r => rowCell (fosterDerive u) r colRate) := by
      have l1 : (fosterDerive u).rows.map
            (fun r => fosterG1 (rowVals (fosterDerive u) [colNumerator, colDenominator] r))
          = (depCells (fosterDerive u) [colNumerator, colDenominator]).map fosterG1 := by
        unfold depCells
        rw [List.map_map]
        rfl
      have l2 : (depCells u [colNumerator, colDenominator]).map fosterG1
          = u.rows.map (fun r => fosterG1 (rowVals u [colNumerator, colDenominator] r)) := by
        unfold depCells
        rw [List.map_map]
        rfl
      rw [l1, e2, l2, ← e1]
      rfl
    exact deriveCol_eq_self hreq hmemR (fun r hr => List.map_eq_map_iff.mp e3 r hr)
  · exact deriveCol_not_reqs hreq

theorem foster_M_fix {u : Table} (hwfu : u.WF) :
    mapCol colPctChange parse_percentage (fosterDerive u) = fosterDerive u := by
  have hwf1 : (deriveCol [colNumerator, colDenominator] colRate
      [colNumerator, colDenominator] fosterG1 u).WF := WF_deriveCol _ _ _ _ hwfu
  have hwfM : (mapCol colPctChange parse_percentage
      (deriveCol [colNumerator, colDenominator] colRate
        [colNumerator, colDenominator] fosterG1 u)).WF := WF_mapCol _ _ hwf1
  by_cases hc : colPctChange ∈ u.cols
  · have hc1 : colPctChange ∈ (deriveCol [colNumerator, colDenominator] colRate
        [colNumerator, colDenominator] fosterG1 u).cols :=
      (mem_cols_deriveCol_of_ne (by decide)).mpr hc
    apply mapCol_eq_self
    intro x hx
    have hcells : getColCells (fosterDerive u) colPctChange
        = (getColCells (deriveCol [colNumerator, colDenominator] colRate
            [colNumerator, colDenominator] fosterG1 u) colPctChange).map parse_percentage := by
      rw [fosterDerive_eq, getColCells_deriveCol_ne hwfM (by decide),
        getColCells_mapCol_self parse_percentage hwf1 hc1]
    rw [hcells] at hx
    rcases List.mem_map.mp hx with ⟨y, _, rfl⟩
    exact parse_percentage_idem y
  · apply mapCol_of_not_mem
    rw [fosterDerive_eq]
    intro hcS
    rw [mem_cols_deriveCol_of_ne (by decide), cols_mapCol,
      mem_cols_deriveCol_of_ne (by decide)] at hcS
    exact hc hcS

theorem foster_D2_fix {u : Table} (hwfu : u.WF) :
    deriveCol [colPctChange] colChangeFlag [colPctChange] fosterG3
      (fosterDerive u) = fosterDerive u := by
  have hwf1 : (deriveCol [colNumerator, colDenominator] colRate
      [colNumerator, colDenominator] fosterG1 u).WF := WF_deriveCol _ _ _ _ hwfu
  have hwfM : (mapCol colPctChange parse_percentage
      (deriveCol [colNumerator, colDenominator] colRate
        [colNumerator, colDenominator] fosterG1 u)).WF := WF_mapCol _ _ hwf1
  by_cases hreq : reqsOk [colPctChange] (fosterDerive u)
  · have hreq_M : reqsOk [colPctChange] (mapCol colPctChange parse_percentage
        (deriveCol [colNumerator, colDenominator] colRate
          [colNumerator, colDenominator] fosterG1 u)) := by
      intro d hd
      have hdS := hreq d hd
      simp only [List.mem_cons, List.not_mem_nil, or_false] at hd
      rcases hd with rfl
      rw [fosterDerive_eq, mem_cols_deriveCol_of_ne (by decide)] at hdS
      exact hdS
    have hmemF : colChangeFlag ∈ (fosterDerive u).cols := by
      rw [fosterDerive_eq]
      exact mem_cols_deriveCol_self hreq_M
    have e1 : getColCells (fosterDerive u) colChangeFlag
        = (mapCol colPctChange parse_percentage
            (deriveCol [colNumerator, colDenominator] colRate
              [colNumerator, colDenominator] fosterG1 u)).rows.map
          (fun r => fosterG3 (rowVals (mapCol colPctChange parse_percentage
            (deriveCol [colNumerator, colDenominator] colRate
              [colNumerator, colDenominator] fosterG1 u)) [colPctChange] r)) := by
      rw [fosterDerive_eq, getColCells_deriveCol_self hwfM hreq_M]
    have e2 : depCells (fosterDerive u) [colPctChange]
        = depCells (mapCol colPctChange parse_percentage
            (deriveCol [colNumerator, colDenominator] colRate
              [colNumerator, colDenominator] fosterG1 u)) [colPctChange] := by
      rw [fosterDerive_eq, depCells_deriveCol_ne hwfM (by decide)]
    have e3 : (fosterDerive u).rows.map
          (fun r => fosterG3 (rowVals (fosterDerive u) [colPctChange] r))
        = (fosterDerive u).rows.map (fun r => rowCell (fosterDerive u) r colChangeFlag) := by
      have l1 : (fosterDerive u).rows.map
            (fun r => fosterG3 (rowVals (fosterDerive u) [colPctChange] r))
          = (depCells (fosterDerive u) [colPctChange]).map fosterG3 := by
        unfold depCells
        rw [List.map_map]
        rfl
      have l2 : (depCells (mapCol colPctChange parse_percentage
            (deriveCol [colNumerator, colDenominator] colRate
              [colNumerator, colDenominator] fosterG1 u)) [colPctChange]).map fosterG3
          = (mapCol colPctChange parse_percentage
              (deriveCol [colNumerator, colDenominator] colRate
                [colNumerator, colDenominator] fosterG1 u)).rows.map
            (fun r => fosterG3 (rowVals (mapCol colPctChange parse_percentage
              (deriveCol [colNumerator, colDenominator] colRate
                [colNumerator, colDenominator] fosterG1 u)) [colPctChange] r)) := by
        unfold depCells
        rw [List.map_map]
        rfl
      rw [l1, e2, l2, ← e1]
      rfl
    exact deriveCol_eq_self hreq hmemF (fun r hr => List.map_eq_map_iff.mp e3 r hr)
  · exact deriveCol_not_reqs hreq

theorem foster_stepB {u : Table} (hwfu : u.WF) :
    fosterDerive (fosterDerive u) = fosterDerive u := by
  rw [fosterDerive_eq (fosterDerive u)]
  rw [foster_D1_fix hwfu, foster_M_fix hwfu, foster_D2_fix hwfu]

theorem fosterHeader_of_mem {t : Table} (h : colMeasureNumber ∈ t.cols) :
    fosterHeader t = t := by
  unfold fosterHeader
  rw [if_pos h]

theorem normalize_foster_idem {t : Table} (hwf : t.WF)
    (hmem : colMeasureNumber ∈ t.cols) :
    normalize keyFoster (normalize keyFoster t) = normalize keyFoster t := by
  have hmemG : colMeasureNumber ∈ (genericSteps t).cols := by
    rw [genericSteps_eq, cols_applyMOps]
    exact hmem
  have h1 : normalize keyFoster t
      = fosterDerive (applyMOps (genericOps ++ fosterNumOps) t) := by
    rw [normalize_foster, fosterHeader_of_mem hmemG, fosterNumAll_eq]
  have hmemN : colMeasureNumber
      ∈ (fosterDerive (applyMOps (genericOps ++ fosterNumOps) t)).cols := by
    rw [fosterDerive_eq]
    apply mem_cols_deriveCol_keep
    rw [cols_mapCol]
    apply mem_cols_deriveCol_keep
    rw [cols_applyMOps]
    exact hmem
  have hmemGN : colMeasureNumber
      ∈ (genericSteps (fosterDerive (applyMOps (genericOps ++ fosterNumOps) t))).cols := by
    rw [genericSteps_eq, cols_applyMOps]
    exact hmemN
  rw [h1, normalize_foster, fosterHeader_of_mem hmemGN, fosterNumAll_eq,
    foster_stepA hwf, foster_stepB (WF_applyMOps _ hwf)]

/- ===================================================================== -/
/- ========================  CLAIM THEOREMS  =========================== -/
/- ===================================================================== -/

/-- C1: for every dataset with a declared filter spec whose county column is
present in a non-empty table, _filter_by_county keeps the column list, keeps
exactly the rows whose county-column value is in the accepted set (so every
kept row's value is accepted and the discarded rows are exactly those whose
value is outside the set), and the kept rows are a sublist of the input rows
in their original relative order (a stable filter, not a re-sort). -/
theorem C1_filter_by_county (key county_col : String) (accept : List String) (df : Table)
    (hspec : county_filters.lookup key = some (county_col, accept))
    (hcol : county_col ∈ df.cols) :
    (filter_by_county df key).cols = df.cols
    ∧ (filter_by_county df key).rows
        = df.rows.filter (fun r => cellAccepted accept (rowCell df r county_col))
    ∧ (∀ r ∈ (filter_by_county df key).rows,
        cellAccepted accept (rowCell df r county_col) = true)
    ∧ (filter_by_county df key).rows.Sublist df.rows := by
  unfold filter_by_county
  by_cases h0 : df.rows.length = 0
  · rw [if_pos h0]
    have hnil : df.rows = [] := List.length_eq_zero.mp h0
    refine ⟨rfl, ?_, ?_, ?_⟩
    · rw [hnil]; rfl
    · intro r hr; rw [hnil] at hr; exact absurd hr (List.not_mem_nil r)
    · exact List.Sublist.refl _
  · rw [if_neg h0]
    simp only [hspec, if_pos hcol]
    refine ⟨trivial, trivial, ?_, List.filter_sublist _⟩
    intro r hr
    exact (List.mem_filter.mp hr).2

/-- C1 witness: the abgar_noabd filter spec on a concrete three-row table,
keeping the Calaveras and State rows in order. -/
theorem C1_filter_witness :
    county_filters.lookup ("abgar_noabd") = some (("Geography"), ["Calaveras", "State"])
    ∧ ("Geography") ∈ (⟨["Geography", "n"], [[Cell.str ("Calaveras"), Cell.int 1],
        [Cell.str ("Alpine"), Cell.int 2], [Cell.str ("State"), Cell.int 3]]⟩ : Table).cols
    ∧ (filter_by_county ⟨["Geography", "n"], [[Cell.str ("Calaveras"), Cell.int 1],
        [Cell.str ("Alpine"), Cell.int 2], [Cell.str ("State"), Cell.int 3]]⟩ ("abgar_noabd")).rows
      = [[Cell.str ("Calaveras"), Cell.int 1], [Cell.str ("State"), Cell.int 3]] := by
  refine ⟨by decide, by decide, ?_⟩
  have h := C1_filter_by_county ("abgar_noabd") ("Geography") ["Calaveras", "State"]
    ⟨["Geography", "n"], [[Cell.str ("Calaveras"), Cell.int 1],
      [Cell.str ("Alpine"), Cell.int 2], [Cell.str ("State"), Cell.int 3]]⟩
    (by decide) (by decide)
  rw [h.2.1]
  decide

/-- C2 counterexample: Treatment_Capacity=30 with Total_Capacity=0 gives
positive infinity under numpy division, not null, in the normalized
sud_recovery_facilities table. -/
theorem C2_counterexample :
    (normalize keySud ⟨[colTreatmentCap, colTotalCap],
        [[Cell.int 30, Cell.int 0]]⟩).rows
      = [[Cell.int 30, Cell.int 0, Cell.inf, Cell.bool false]]
    ∧ Cell.inf ≠ Cell.null := by decide

/-- C2 amended: the sud_recovery_facilities normalizer derives
Capacity_Utilization = Treatment_Capacity / Total_Capacity rounded to
2 decimals, where a null Total_Capacity yields null but a zero
Total_Capacity follows numpy division (a signed infinity for a nonzero
numerator, null only for 0/0): 30/0 gives +infinity, 40/50 gives 0.8;
Large_Facility = (Total_Capacity > 50) is false at 50 and true at 51. -/
theorem C2_sud_capacity_amended (n : ℤ) (a : Cell) :
    normalize keySud ⟨[colTreatmentCap, colTotalCap],
        [[Cell.int 30, Cell.int 0], [Cell.int 40, Cell.int 50],
         [Cell.int 30, Cell.null], [Cell.int 40, Cell.int 51]]⟩
      = ⟨[colTreatmentCap, colTotalCap, colCapUtil, colLargeFacility],
         [[Cell.int 30, Cell.int 0, Cell.inf, Cell.bool false],
          [Cell.int 40, Cell.int 50, Cell.real (mkRat 4 5), Cell.bool false],
          [Cell.int 30, Cell.null, Cell.null, Cell.bool false],
          [Cell.int 40, Cell.int 51, Cell.real (mkRat 39 50), Cell.bool true]]⟩
    ∧ (0 < n → roundCell 2 (pdDiv (Cell.int n) (Cell.int 0)) = Cell.inf)
    ∧ (n < 0 → roundCell 2 (pdDiv (Cell.int n) (Cell.int 0)) = Cell.ninf)
    ∧ roundCell 2 (pdDiv (Cell.int 0) (Cell.int 0)) = Cell.null
    ∧ roundCell 2 (pdDiv a Cell.null) = Cell.null := by
  refine ⟨by decide, ?_, ?_, by decide, ?_⟩
  · intro h
    have hq : (0 : ℚ) < (n : ℚ) := by exact_mod_cast h
    simp [pdDiv, cellNum, extDiv, roundCell, hq, not_lt.mpr (le_of_lt hq)]
  · intro h
    have hq : (n : ℚ) < 0 := by exact_mod_cast h
    simp [pdDiv, cellNum, extDiv, roundCell, hq, not_lt.mpr (le_of_lt hq)]
  · cases a <;> rfl

/-- C3 counterexample: a dataset whose pipeline result has zero rows is
omitted by all four exporters (no empty artifact is written), so the
exported manifest is not stable across runs. -/
theorem C3_counterexample :
    export_to_csv_files [(("a"), emptyTable)] = []
    ∧ export_to_parquet_files [(("a"), emptyTable)] = []
    ∧ export_to_sqlite_tables [(("a"), emptyTable)] = []
    ∧ export_to_excel_sheets [(("a"), emptyTable)] = [] := by decide

/-- C3 amended: each exporter writes an artifact exactly for the non-empty
datasets — a dataset key is exported to sqlite iff its table has at least
one row, and the csv, parquet and excel exporters write artifacts for
exactly the same datasets (the same filtered key list, decorated with the
format's file extension or truncated to the 31-character sheet-name
limit). -/
theorem C3_export_amended (dfs : List (String × Table)) (key : String) :
    (key ∈ export_to_sqlite_tables dfs ↔ ∃ t, (key, t) ∈ dfs ∧ 0 < t.rows.length)
    ∧ export_to_csv_files dfs
        = (export_to_sqlite_tables dfs).map (fun k => k ++ (".csv"))
    ∧ export_to_parquet_files dfs
        = (export_to_sqlite_tables dfs).map (fun k => k ++ (".parquet"))
    ∧ export_to_excel_sheets dfs
        = (export_to_sqlite_tables dfs).map (fun k => (⟨k.data.take 31⟩ : String)) := by
  refine ⟨?_, ?_, ?_, ?_⟩
  · unfold export_to_sqlite_tables
    constructor
    · intro h
      rcases List.mem_map.mp h with ⟨p, hp, he⟩
      rcases List.mem_filter.mp hp with ⟨hmem, hlen⟩
      exact ⟨p.2, by rw [← he]; exact hmem, of_decide_eq_true hlen⟩
    · intro ⟨t, hmem, hlen⟩
      exact List.mem_map.mpr ⟨(key, t),
        List.mem_filter.mpr ⟨hmem, decide_eq_true hlen⟩, rfl⟩
  · unfold export_to_csv_files export_to_sqlite_tables
    rw [List.map_map]
    rfl
  · unfold export_to_parquet_files export_to_sqlite_tables
    rw [List.map_map]
    rfl
  · unfold export_to_excel_sheets export_to_sqlite_tables
    rw [List.map_map]
    rfl

/-- C4 counterexample: normalization is not idempotent for every dataset id.
For acs_5yr_estimates a second application relabels the columns again and
overwrites County with the literal header text "Value"; for
foster_care_entries_exits, when the promoted header cell is not literally
"Measure number" and a data row still contains the marker text, a second
application promotes a data row to the header and drops rows. -/
theorem C4_counterexample :
    normalize keyAcs (normalize keyAcs ⟨["Label col", "Calaveras County, California!!Estimate"],
        [[Cell.str ("Total pop"), Cell.str ("1,234")]]⟩)
      ≠ normalize keyAcs ⟨["Label col", "Calaveras County, California!!Estimate"],
        [[Cell.str ("Total pop"), Cell.str ("1,234")]]⟩
    ∧ normalize keyFoster (normalize keyFoster ⟨["A", "B"],
        [[Cell.str ("measure number"), Cell.str ("x")],
         [Cell.str ("measure number"), Cell.str ("y")]]⟩)
      ≠ normalize keyFoster ⟨["A", "B"],
        [[Cell.str ("measure number"), Cell.str ("x")],
         [Cell.str ("measure number"), Cell.str ("y")]]⟩ := by decide

/-- C4 amended: normalization is idempotent for every dataset identifier
other than acs_5yr_estimates, where for foster_care_entries_exits the input
table is asked to already carry the literal "Measure number" column (so the
header-promotion step is settled): for every such id and every rectangular
table T, normalize(id, normalize(id, T)) = normalize(id, T). -/
theorem C4_normalize_idem_amended (key : String) (t : Table) (hwf : t.WF)
    (hacs : key ≠ keyAcs)
    (hfoster : key = keyFoster → colMeasureNumber ∈ t.cols) :
    normalize key (normalize key t) = normalize key t := by
  by_cases h1 : key = keyFfs
  · subst h1; rw [normalize_ffs t, normalize_ffs]; exact ffsAll_idem_t t
  by_cases h3 : key = keyFoster
  · subst h3; exact normalize_foster_idem hwf (hfoster rfl)
  by_cases h4 : key = keySud
  · subst h4; exact normalize_sud_idem hwf
  by_cases h5 : key = keySudGeo
  · subst h5; rw [normalize_sudGeo t, normalize_sudGeo]; exact sudCommonAll_idem_t t
  by_cases h6 : key = keyCoreSet
  · subst h6; rw [normalize_core t, normalize_core]; exact coreAll_idem_t t
  by_cases h7 : key = keyMatAnnual
  · subst h7; rw [normalize_matA t, normalize_matA]; exact matAll_idem_t t
  by_cases h8 : key = keyMatQuarterly
  · subst h8; rw [normalize_matQ t, normalize_matQ]; exact matAll_idem_t t
  rw [normalize_default t h1 hacs h3 h4 h5 h6 h7 h8,
    normalize_default _ h1 hacs h3 h4 h5 h6 h7 h8]
  exact genericSteps_idem t

/-- C4 witness: idempotence at the foster_care_entries_exits key on a
concrete table that carries the "Measure number" column. -/
theorem C4_idem_witness :
    ((⟨[colMeasureNumber, colPctChange],
        [[Cell.str ("M1"), Cell.str ("5.2%")]]⟩ : Table)).WF
    ∧ keyFoster ≠ keyAcs
    ∧ normalize keyFoster (normalize keyFoster ⟨[colMeasureNumber, colPctChange],
        [[Cell.str ("M1"), Cell.str ("5.2%")]]⟩)
      = normalize keyFoster ⟨[colMeasureNumber, colPctChange],
        [[Cell.str ("M1"), Cell.str ("5.2%")]]⟩ :=
  ⟨by decide, by decide,
   C4_normalize_idem_amended keyFoster
     ⟨[colMeasureNumber, colPctChange], [[Cell.str ("M1"), Cell.str ("5.2%")]]⟩
     (by decide) (by decide) (fun _ => by decide)⟩

/- ----- C5 helper: every failing cell is reported ----- -/

theorem mem_schemaViolations {sch : Schema} {t : Table} {p : String × LType} {i : ℕ}
    {r : List Cell} (hp : p ∈ sch) (hcol : p.1 ∈ t.cols) (hr : t.rows[i]? = some r)
    (hfail : coerceCell p.2 (rowCell t r p.1) = none) :
    (p.1, i) ∈ schemaViolations sch t := by
  induction sch with
  | nil => exact absurd hp (List.not_mem_nil _)
  | cons q sch ih =>
    unfold schemaViolations
    rw [List.foldr_cons]
    rcases List.mem_cons.mp hp with rfl | hp'
    · rw [if_pos hcol]
      apply List.mem_append_left
      apply List.mem_filterMap.mpr
      refine ⟨(i, r), List.mk_mem_enum_iff_getElem?.mpr hr, ?_⟩
      rw [if_pos hfail]
    · have hrest : (p.1, i) ∈ schemaViolations sch t := ih hp'
      by_cases hq : q.1 ∈ t.cols
      · rw [if_pos hq]
        exact List.mem_append_right _ hrest
      · rw [if_neg hq]
        exact hrest

/-- C5 counterexample: a cell that cannot be coerced to its declared type is
NOT replaced by null — pandera's SchemaErrors is caught and the table flows
on unchanged, the failure cases only being logged: for adult_depression_lghc
with Frequency = "abc" the returned table still holds the string "abc". -/
theorem C5_counterexample :
    validateStep ("adult_depression_lghc") ⟨["Frequency"], [[Cell.str ("abc")]]⟩
      = (⟨["Frequency"], [[Cell.str ("abc")]]⟩, [(("Frequency"), 0)])
    ∧ Cell.str ("abc") ≠ Cell.null := by decide

/-- C5 amended: for every dataset key in the schema registry and every
non-empty table on which some cell fails coercion, validation never raises:
the table is returned UNCHANGED (no cell is nulled), the logged report is
the aggregated failure-case list, and every failing (column, row-index)
pair is collected in it (validation does not stop at the first one). -/
theorem C5_validate_amended (key : String) (sch : Schema) (t : Table)
    (hsch : schemaRegistry.lookup key = some sch) (hne : 0 < t.rows.length)
    (hfail : schemaViolations sch t ≠ []) :
    (validateStep key t).1 = t
    ∧ (validateStep key t).2 = schemaViolations sch t
    ∧ ∀ p ∈ sch, p.1 ∈ t.cols → ∀ i r, t.rows[i]? = some r →
        coerceCell p.2 (rowCell t r p.1) = none →
        (p.1, i) ∈ (validateStep key t).2 := by
  have hemp : ¬ ((schemaViolations sch t).isEmpty = true) := by
    intro h
    exact hfail (List.isEmpty_iff.mp h)
  have hstep : validateStep key t = (t, schemaViolations sch t) := by
    unfold validateStep
    simp only [hsch, if_pos hne, if_neg hemp]
  refine ⟨by rw [hstep], by rw [hstep], ?_⟩
  intro p hp hcol i r hr hfailc
  rw [hstep]
  exact mem_schemaViolations hp hcol hr hfailc

/-- C5 witness: the acs_5yr_estimates schema on a one-row table whose Value
cell is the unparsable string "abc": the table is returned unchanged and
the report is [("Value", 0)]. -/
theorem C5_validate_witness :
    schemaRegistry.lookup keyAcs
      = some [(colLabel, LType.text), (colValue, LType.realT), (colCountyCap, LType.text)]
    ∧ 0 < ((⟨[colValue], [[Cell.str ("abc")]]⟩ : Table)).rows.length
    ∧ schemaViolations [(colLabel, LType.text), (colValue, LType.realT),
        (colCountyCap, LType.text)] ⟨[colValue], [[Cell.str ("abc")]]⟩ ≠ []
    ∧ ((validateStep keyAcs ⟨[colValue], [[Cell.str ("abc")]]⟩).1
        = ⟨[colValue], [[Cell.str ("abc")]]⟩
       ∧ (validateStep keyAcs ⟨[colValue], [[Cell.str ("abc")]]⟩).2
        = schemaViolations [(colLabel, LType.text), (colValue, LType.realT),
            (colCountyCap, LType.text)] ⟨[colValue], [[Cell.str ("abc")]]⟩
       ∧ ∀ p ∈ [(colLabel, LType.text), (colValue, LType.realT),
            (colCountyCap, LType.text)],
          p.1 ∈ ((⟨[colValue], [[Cell.str ("abc")]]⟩ : Table)).cols →
          ∀ i r, ((⟨[colValue], [[Cell.str ("abc")]]⟩ : Table)).rows[i]? = some r →
          coerceCell p.2 (rowCell ⟨[colValue], [[Cell.str ("abc")]]⟩ r p.1) = none →
          (p.1, i) ∈ (validateStep keyAcs ⟨[colValue], [[Cell.str ("abc")]]⟩).2) :=
  ⟨by decide, by decide, by decide,
   C5_validate_amended keyAcs
     [(colLabel, LType.text), (colValue, LType.realT), (colCountyCap, LType.text)]
     ⟨[colValue], [[Cell.str ("abc")]]⟩ (by decide) (by decide) (by decide)⟩

/-- C6: for the foster-care percent-change column, normalize maps "5.2%" to
the real value 0.052 (= 13/250) with notable-change flag true, "-3%" to
-0.03 with flag false, and a null or unparsable value to null with flag
false; for every parsed real value the flag is true exactly when the
absolute fractional change exceeds 0.05 (= 1/20), and it is false on
null. -/
theorem C6_foster_percent (q : ℚ) :
    normalize keyFoster ⟨[colMeasureNumber, colPctChange],
        [[Cell.str ("M1"), Cell.str ("5.2%")], [Cell.str ("M2"), Cell.str ("-3%")],
         [Cell.str ("M3"), Cell.null], [Cell.str ("M4"), Cell.str ("n/a")]]⟩
      = ⟨[colMeasureNumber, colPctChange, colChangeFlag],
         [[Cell.str ("M1"), Cell.real (mkRat 13 250), Cell.bool true],
          [Cell.str ("M2"), Cell.real (mkRat (-3) 100), Cell.bool false],
          [Cell.str ("M3"), Cell.null, Cell.bool false],
          [Cell.str ("M4"), Cell.null, Cell.bool false]]⟩
    ∧ parse_percentage (Cell.str ("5.2%")) = Cell.real (mkRat 13 250)
    ∧ parse_percentage (Cell.str ("-3%")) = Cell.real (mkRat (-3) 100)
    ∧ parse_percentage Cell.null = Cell.null
    ∧ parse_percentage (Cell.str ("n/a")) = Cell.null
    ∧ notableFlag (Cell.real q) = decide (mkRat 1 20 < ratAbs q)
    ∧ notableFlag Cell.null = false := by
  refine ⟨by decide, by decide, by decide, by decide, by decide, rfl, by decide⟩

/- ----- C7 helpers: the empty placeholder flows through unchanged ----- -/

theorem normalize_emptyTable (key : String) : normalize key emptyTable = emptyTable := by
  unfold normalize
  simp only [show genericSteps emptyTable = emptyTable from by decide,
    show ffsSteps emptyTable = emptyTable from by decide,
    show acsSteps emptyTable = emptyTable from by decide,
    show fosterNumerics (fosterHeader emptyTable) = emptyTable from by decide,
    show sudCommon emptyTable = emptyTable from by decide,
    show sudDerive emptyTable = emptyTable from by decide,
    show fosterDerive emptyTable = emptyTable from by decide,
    show coreSetSteps emptyTable = emptyTable from by decide,
    show matSteps emptyTable = emptyTable from by decide,
    ite_self]

theorem processOne_emptyTable (key : String) : processOne key emptyTable = (emptyTable, []) := by
  unfold processOne
  rw [normalize_emptyTable]
  have hv : validateStep key emptyTable = (emptyTable, []) := by
    unfold validateStep
    cases hlk : schemaRegistry.lookup key with
    | none => rfl
    | some sch => rfl
  simp only [hv]
  rfl

/-- C7: manual:/restricted: sentinels, http:// and https:// URLs always
load as None with no fetch attempted (the result is none for EVERY
filesystem oracle, so no file or network access can influence it), a
missing local path loads as None, the pipeline substitutes the empty
placeholder table per dataset independently, and the full pipeline on the
empty placeholder yields a zero-row table with zero violations. -/
theorem C7_loader_policy (fexists : String → Bool) (fparse : String → Option Table)
    (source key : String) (sources : List (String × String)) :
    (startsWithChars ("manual:").data source.data = true
      ∨ startsWithChars ("restricted:").data source.data = true
      ∨ startsWithChars ("http://").data source.data = true
      ∨ startsWithChars ("https://").data source.data = true
      → load_data fexists fparse source = none)
    ∧ (fexists source = false → load_data fexists fparse source = none)
    ∧ runPipeline fexists fparse sources
        = sources.map (fun p => (p.1, processOne p.1
            (match load_data fexists fparse p.2 with
             | some df => df
             | none => emptyTable)))
    ∧ processOne key emptyTable = (emptyTable, []) := by
  refine ⟨?_, ?_, ?_, processOne_emptyTable key⟩
  · intro h
    unfold load_data
    by_cases h1 : (startsWithChars ("manual:").data source.data
        || startsWithChars ("restricted:").data source.data) = true
    · rw [if_pos h1]
    · rw [if_neg h1]
      by_cases h2 : (startsWithChars ("http://").data source.data
          || startsWithChars ("https://").data source.data) = true
      · rw [if_pos h2]
      · exfalso
        rcases h with h' | h' | h' | h' <;> simp_all
  · intro hf
    unfold load_data
    by_cases h1 : (startsWithChars ("manual:").data source.data
        || startsWithChars ("restricted:").data source.data) = true
    · rw [if_pos h1]
    · rw [if_neg h1]
      by_cases h2 : (startsWithChars ("http://").data source.data
          || startsWithChars ("https://").data source.data) = true
      · rw [if_pos h2]
      · rw [if_neg h2, if_neg (by simp [hf])]
  · unfold runPipeline load_all
    rw [List.map_map]
    rfl

/- ----- C8 helper: the findIdx? scan finds the first matching row ----- -/

theorem findIdx?_first (p : List Cell → Bool) :
    ∀ (l : List (List Cell)) (s i : ℕ), List.findIdx? p l s = some i →
      s ≤ i ∧ (∃ r, l[i - s]? = some r ∧ p r = true)
      ∧ ∀ j r', j < i - s → l[j]? = some r' → p r' = false := by
  intro l
  induction l with
  | nil => intro s i h; exact absurd h (by simp [List.findIdx?])
  | cons x xs ih =>
    intro s i h
    rw [List.findIdx?_cons] at h
    by_cases hp : p x = true
    · rw [if_pos hp] at h
      have hi : i = s := (Option.some_inj.mp h).symm
      subst hi
      refine ⟨le_refl i, ⟨x, by simp, hp⟩, ?_⟩
      intro j r' hj _
      omega
    · rw [if_neg hp] at h
      obtain ⟨hs, ⟨r, hr, hpr⟩, hbefore⟩ := ih (s + 1) i h
      refine ⟨by omega, ⟨r, ?_, hpr⟩, ?_⟩
      · have he : i - s = (i - (s + 1)) + 1 := by omega
        rw [he, List.getElem?_cons_succ]
        exact hr
      · intro j r' hj hjr
        cases j with
        | zero =>
          rw [List.getElem?_cons_zero] at hjr
          rw [← Option.some_inj.mp hjr]
          exact Bool.not_eq_true _ ▸ hp
        | succ j' =>
          rw [List.getElem?_cons_succ] at hjr
          exact hbefore j' r' (by omega) hjr

/-- C8: for the foster-care measures dataset, when "Measure number" is
already a column name the table is left as is; otherwise the rows are
scanned in order for the first row with some cell containing the marker
text (all earlier rows have none), the column names become that row's
values, and every row above and including it is dropped, so the first data
row of the result is the row immediately following the detected header;
when no such row exists the table is returned as loaded; a concrete
title/blank/header table normalizes to the promoted header with one data
row. -/
theorem C8_foster_header (t : Table) (i : ℕ) :
    (colMeasureNumber ∈ t.cols → fosterHeader t = t)
    ∧ (colMeasureNumber ∉ t.cols → t.rows.findIdx? rowHasMarker = some i →
        fosterHeader t = ⟨(t.rows.getD i []).map colNameOf, t.rows.drop (i + 1)⟩
        ∧ (∃ r, t.rows[i]? = some r ∧ rowHasMarker r = true)
        ∧ (∀ j r', j < i → t.rows[j]? = some r' → rowHasMarker r' = false))
    ∧ (colMeasureNumber ∉ t.cols → t.rows.findIdx? rowHasMarker = none →
        fosterHeader t = t)
    ∧ normalize keyFoster ⟨[" 0", " 1"],
        [[Cell.str ("Report title"), Cell.null],
         [Cell.null, Cell.null],
         [Cell.str ("Measure number"), Cell.str ("Measure description")],
         [Cell.str ("M1"), Cell.str ("Entries")]]⟩
      = ⟨["Measure number", "Measure description"],
         [[Cell.str ("M1"), Cell.str ("Entries")]]⟩ := by
  refine ⟨fosterHeader_of_mem, ?_, ?_, by decide⟩
  · intro hnm hfind
    obtain ⟨_, ⟨r, hr, hpr⟩, hbefore⟩ := findIdx?_first rowHasMarker t.rows 0 i hfind
    rw [Nat.sub_zero] at hr hbefore
    refine ⟨?_, ⟨r, hr, hpr⟩, fun j r' hj hjr => hbefore j r' hj hjr⟩
    unfold fosterHeader
    rw [if_neg hnm]
    simp only [hfind]
  · intro hnm hfind
    unfold fosterHeader
    rw [if_neg hnm]
    simp only [hfind]

/-- C9: for the mat_annual and mat_quarterly datasets the members column is
exactly the numeric coercion of the loaded members column — and a string
cell that does not parse as a number (a suppressed count) coerces to null,
which is distinct from the integer 0, so for every input table a suppressed
cell remains distinguishable from an observed zero after normalization. -/
theorem C9_mat_members (key : String) (t : Table) (s : String) (hwf : t.WF)
    (hkey : key = keyMatAnnual ∨ key = keyMatQuarterly)
    (hmem : colMembers ∈ t.cols) (hs : parseNumChars s.data = none) :
    getColCells (normalize key t) colMembers
      = (getColCells t colMembers).map toNumericCell
    ∧ toNumericCell (Cell.str s) = Cell.null
    ∧ Cell.null ≠ Cell.int 0 := by
  have hwfG : (applyMOps genericOps t).WF := WF_applyMOps _ hwf
  have hcG : colMembers ∈ (applyMOps genericOps t).cols := by
    rw [cols_applyMOps]
    exact hmem
  have hgen : ∀ o ∈ genericOps, o.c ≠ colMembers := by
    intro o ho
    simp only [genericOps, List.mem_cons, List.not_mem_nil, or_false] at ho
    rcases ho with rfl | rfl | rfl | rfl | rfl | rfl | rfl <;> decide
  have hcol : getColCells (matSteps (genericSteps t)) colMembers
      = (getColCells t colMembers).map toNumericCell := by
    rw [matAll_eq, applyMOps_append]
    simp only [matOps]
    rw [applyMOps_cons, applyMOps_cons, applyMOps_nil]
    rw [getColCells_mapCol_ne strCastCell _ (by decide : colMembers ≠ colYear)]
    rw [getColCells_mapCol_self toNumericCell hwfG hcG]
    rw [getColCells_applyMOps_ne hgen]
  refine ⟨?_, ?_, by decide⟩
  · rcases hkey with rfl | rfl
    · rw [normalize_matA]
      exact hcol
    · rw [normalize_matQ]
      exact hcol
  · show (match parseNumChars s.data with
      | some v => v.toCell
      | none => Cell.null) = Cell.null
    rw [hs]

/-- C9 witness: mat_annual with a suppressed "<11" members cell and an
observed 0: the suppressed cell normalizes to null, not 0. -/
theorem C9_mat_witness :
    ((⟨[colMembers], [[Cell.str ("<11")], [Cell.int 0]]⟩ : Table)).WF
    ∧ (keyMatAnnual = keyMatAnnual ∨ keyMatAnnual = keyMatQuarterly)
    ∧ colMembers ∈ ((⟨[colMembers], [[Cell.str ("<11")], [Cell.int 0]]⟩ : Table)).cols
    ∧ parseNumChars ("<11").data = none
    ∧ getColCells (normalize keyMatAnnual ⟨[colMembers],
        [[Cell.str ("<11")], [Cell.int 0]]⟩) colMembers
      = (getColCells ⟨[colMembers], [[Cell.str ("<11")], [Cell.int 0]]⟩ colMembers).map
          toNumericCell
    ∧ toNumericCell (Cell.str ("<11")) = Cell.null
    ∧ Cell.null ≠ Cell.int 0 :=
  ⟨by decide, Or.inl rfl, by decide, by decide,
   (C9_mat_members keyMatAnnual ⟨[colMembers], [[Cell.str ("<11")], [Cell.int 0]]⟩
     ("<11") (by decide) (Or.inl rfl) (by decide) (by decide)).1,
   (C9_mat_members keyMatAnnual ⟨[colMembers], [[Cell.str ("<11")], [Cell.int 0]]⟩
     ("<11") (by decide) (Or.inl rfl) (by decide) (by decide)).2.1,
   by decide⟩

/- ----- C10 helpers: county columns hold strings after cleaning ----- -/

theorem strCol_mapCol_pres {t : Table} {c c' : String} {f : Cell → Cell} (hwf : t.WF)
    (hcase : c ≠ c' ∨ f = titleCell)
    (h : ∀ x ∈ getColCells t c, ∃ s, x = Cell.str s) :
    ∀ x ∈ getColCells (mapCol c' f t) c, ∃ s, x = Cell.str s := by
  intro x hx
  by_cases hne : c = c'
  · subst hne
    rcases hcase with hcon | rfl
    · exact absurd rfl hcon
    by_cases hmem : c ∈ t.cols
    · rw [getColCells_mapCol_self titleCell hwf hmem] at hx
      rcases List.mem_map.mp hx with ⟨y, _, rfl⟩
      exact ⟨_, rfl⟩
    · rw [mapCol_of_not_mem titleCell hmem] at hx
      exact h x hx
  · rw [getColCells_mapCol_ne f t hne] at hx
    exact h x hx

theorem strCol_deriveCol_pres {t : Table} {reqs : List String} {c c' : String}
    {deps : List String} {g : List Cell → Cell} (hwf : t.WF) (hne : c ≠ c')
    (h : ∀ x ∈ getColCells t c, ∃ s, x = Cell.str s) :
    ∀ x ∈ getColCells (deriveCol reqs c' deps g t) c, ∃ s, x = Cell.str s := by
  intro x hx
  rw [getColCells_deriveCol_ne hwf hne] at hx
  exact h x hx

theorem strCol_genericSteps {t : Table} {c : String} (hwf : t.WF)
    (hc : c = colCounty ∨ c = colCountyName) (hmem : c ∈ t.cols) :
    ∀ x ∈ getColCells (genericSteps t) c, ∃ s, x = Cell.str s := by
  rcases hc with rfl | rfl
  · rw [genericSteps_eq]
    have hstep : applyMOps genericOps t
        = applyMOps [⟨colCountyName, titleCell⟩, ⟨colZipCode, zfill5StrCell⟩,
            ⟨colFacilityZip, zipNumCell 5⟩, ⟨colZIP, zipNumCell 5⟩,
            ⟨colLatitude, toNumericCell⟩, ⟨colLongitude, toNumericCell⟩]
          (mapCol colCounty titleCell t) := by
      simp only [genericOps, applyMOps, List.foldl_cons, List.foldl_nil]
    rw [hstep]
    intro x hx
    rw [getColCells_applyMOps_ne (by decide)] at hx
    rw [getColCells_mapCol_self titleCell hwf hmem] at hx
    rcases List.mem_map.mp hx with ⟨y, _, rfl⟩
    exact ⟨_, rfl⟩
  · rw [genericSteps_eq]
    have hstep : applyMOps genericOps t
        = applyMOps [⟨colZipCode, zfill5StrCell⟩, ⟨colFacilityZip, zipNumCell 5⟩,
            ⟨colZIP, zipNumCell 5⟩, ⟨colLatitude, toNumericCell⟩,
            ⟨colLongitude, toNumericCell⟩]
          (mapCol colCountyName titleCell (mapCol colCounty titleCell t)) := by
      simp only [genericOps, applyMOps, List.foldl_cons, List.foldl_nil]
    rw [hstep]
    intro x hx
    rw [getColCells_applyMOps_ne (by decide)] at hx
    rw [getColCells_mapCol_self titleCell (WF_mapCol _ _ hwf)
      (by rw [cols_mapCol]; exact hmem)] at hx
    rcases List.mem_map.mp hx with ⟨y, _, rfl⟩
    exact ⟨_, rfl⟩

theorem indexOf_map_eq {f : String → String} {c : String} (hf : ∀ x, f x = c ↔ x = c) :
    ∀ l : List String, (l.map f).indexOf c = l.indexOf c := by
  intro l
  induction l with
  | nil => rfl
  | cons a l ih =>
    rw [List.map_cons]
    simp only [List.indexOf_cons]
    by_cases ha : a = c
    · rw [beq_iff_eq.mpr ((hf a).mpr ha), beq_iff_eq.mpr ha]
      rfl
    · rw [beq_eq_false_iff_ne.mpr (fun h => ha ((hf a).mp h)),
        beq_eq_false_iff_ne.mpr ha, cond_false, cond_false, ih]

theorem acsSteps_pos_eq (t : Table) (h2 : 2 ≤ t.cols.length) :
    acsSteps t
    = { cols := (deriveCol [] colCountyCap []
          (fun _ => Cell.str (countyFromHeader (t.cols.getD 1 (""))))
          (mapCol colValue toNumericCell (mapCol colValue stripCommasCell
            (mapCol colValue strCastCell
              ⟨t.cols.map (fun c => if c = t.cols.getD 1 ("") then colValue
                else if c = t.cols.getD 0 ("") then colLabel else c), t.rows⟩)))).cols,
        rows := (deriveCol [] colCountyCap []
          (fun _ => Cell.str (countyFromHeader (t.cols.getD 1 (""))))
          (mapCol colValue toNumericCell (mapCol colValue stripCommasCell
            (mapCol colValue strCastCell
              ⟨t.cols.map (fun c => if c = t.cols.getD 1 ("") then colValue
                else if c = t.cols.getD 0 ("") then colLabel else c), t.rows⟩)))).rows.filter
          (fun r => rowCell (deriveCol [] colCountyCap []
            (fun _ => Cell.str (countyFromHeader (t.cols.getD 1 (""))))
            (mapCol colValue toNumericCell (mapCol colValue stripCommasCell
              (mapCol colValue strCastCell
                ⟨t.cols.map (fun c => if c = t.cols.getD 1 ("") then colValue
                  else if c = t.cols.getD 0 ("") then colLabel else c), t.rows⟩))))
            r colLabel != Cell.null) } := by
  unfold acsSteps
  rw [if_pos h2]

theorem acsSteps_neg_eq (t : Table) (h2 : ¬ 2 ≤ t.cols.length) : acsSteps t = t := by
  unfold acsSteps
  rw [if_neg h2]

theorem strCol_acsSteps {u : Table} {c : String} (hwfu : u.WF)
    (hc : c = colCounty ∨ c = colCountyName)
    (hout : c ∈ (acsSteps u).cols)
    (h : ∀ x ∈ getColCells u c, ∃ s, x = Cell.str s) :
    ∀ x ∈ getColCells (acsSteps u) c, ∃ s, x = Cell.str s := by
  by_cases hlen : 2 ≤ u.cols.length
  · rw [acsSteps_pos_eq u hlen] at hout ⊢
    set V := u.cols.getD 1 ("") with hV
    set L := u.cols.getD 0 ("") with hL
    set t1 : Table := ⟨u.cols.map (fun c0 => if c0 = V then colValue
      else if c0 = L then colLabel else c0), u.rows⟩ with ht1
    set t3 := mapCol colValue toNumericCell (mapCol colValue stripCommasCell
      (mapCol colValue strCastCell t1)) with ht3
    set t4 := deriveCol [] colCountyCap []
      (fun _ => Cell.str (countyFromHeader V)) t3 with ht4
    have hcolne : c ≠ colCountyCap := by rcases hc with rfl | rfl <;> decide
    have hcV' : c ≠ colValue := by rcases hc with rfl | rfl <;> decide
    have hcL' : c ≠ colLabel := by rcases hc with rfl | rfl <;> decide
    have hout4 : c ∈ t4.cols := hout
    have hct3 : c ∈ t3.cols := by
      rw [ht4] at hout4
      exact (mem_cols_deriveCol_of_ne hcolne).mp hout4
    have hct1 : c ∈ t1.cols := by
      rw [ht3, cols_mapCol, cols_mapCol, cols_mapCol] at hct3
      exact hct3
    have hmap : c ∈ u.cols.map (fun c0 => if c0 = V then colValue
        else if c0 = L then colLabel else c0) := by
      rw [ht1] at hct1
      exact hct1
    obtain ⟨y, hy, hry⟩ := List.mem_map.mp hmap
    have hcneV : c ≠ V := by
      by_cases hyV : y = V
      · rw [if_pos hyV] at hry
        exact (hcV' hry.symm).elim
      · by_cases hyL : y = L
        · rw [if_neg hyV, if_pos hyL] at hry
          exact (hcL' hry.symm).elim
        · rw [if_neg hyV, if_neg hyL] at hry
          subst hry
          exact hyV
    have hcneL : c ≠ L := by
      by_cases hyV : y = V
      · rw [if_pos hyV] at hry
        exact (hcV' hry.symm).elim
      · by_cases hyL : y = L
        · rw [if_neg hyV, if_pos hyL] at hry
          exact (hcL' hry.symm).elim
        · rw [if_neg hyV, if_neg hyL] at hry
          subst hry
          exact hyL
    have hf : ∀ z, (if z = V then colValue else if z = L then colLabel else z) = c
        ↔ z = c := by
      intro z
      constructor
      · intro hz
        by_cases hzV : z = V
        · rw [if_pos hzV] at hz
          exact (hcV' hz.symm).elim
        · by_cases hzL : z = L
          · rw [if_neg hzV, if_pos hzL] at hz
            exact (hcL' hz.symm).elim
          · rwa [if_neg hzV, if_neg hzL] at hz
      · rintro rfl
        rw [if_neg hcneV, if_neg hcneL]
    have hidx : (u.cols.map (fun c0 => if c0 = V then colValue
        else if c0 = L then colLabel else c0)).indexOf c = u.cols.indexOf c :=
      indexOf_map_eq hf u.cols
    have hwf1 : t1.WF := by
      rw [ht1]
      intro r hr
      rw [List.length_map]
      exact hwfu r hr
    have hwf3 : t3.WF := by
      rw [ht3]
      exact WF_mapCol _ _ (WF_mapCol _ _ (WF_mapCol _ _ hwf1))
    have hcells1 : getColCells t1 c = getColCells u c := by
      rw [ht1]
      unfold getColCells rowCell
      simp only [hidx]
    have hcells4 : getColCells t4 c = getColCells u c := by
      rw [ht4, getColCells_deriveCol_ne hwf3 hcolne, ht3,
        getColCells_mapCol_ne _ _ hcV', getColCells_mapCol_ne _ _ hcV',
        getColCells_mapCol_ne _ _ hcV', hcells1]
    intro x hx
    unfold getColCells at hx
    rcases List.mem_map.mp hx with ⟨r, hr, rfl⟩
    have hr4 : r ∈ t4.rows := List.mem_of_mem_filter hr
    have hxin : rowCell ⟨t4.cols, t4.rows.filter
        (fun r => rowCell t4 r colLabel != Cell.null)⟩ r c ∈ getColCells t4 c :=
      List.mem_map.mpr ⟨r, hr4, rfl⟩
    rw [hcells4] at hxin
    exact h _ hxin
  · rw [acsSteps_neg_eq u hlen] at hout ⊢
    exact h

/-- C10 counterexample: the implicit "no nulls in the county column after
normalization" property fails for foster_care_entries_exits: when header
promotion rebuilds the column list from a detected header row, a promoted
'county' column can still contain null cells (the generic string-cast step
ran before promotion, on the old columns). -/
theorem C10_counterexample :
    colCounty ∈ ((⟨[colCounty, "b"],
        [[Cell.str ("x Measure number y"), Cell.str ("county")],
         [Cell.null, Cell.null]]⟩ : Table)).cols
    ∧ Cell.null ∈ getColCells (normalize keyFoster ⟨[colCounty, "b"],
        [[Cell.str ("x Measure number y"), Cell.str ("county")],
         [Cell.null, Cell.null]]⟩) colCounty := by decide

/-- C10 amended: for every dataset other than foster_care_entries_exits,
when a 'county' or 'CountyName' column is present in the input and still
present under that name in the normalized output (acs_5yr_estimates may
relabel the first two columns), every cell of that column after
normalization is a non-null string — the string-cast-then-title-case step
turns a null into the literal text "Nan". -/
theorem C10_county_amended (key : String) (t : Table) (c : String) (hwf : t.WF)
    (hfoster : key ≠ keyFoster) (hc : c = colCounty ∨ c = colCountyName)
    (hmem : c ∈ t.cols) (hout : c ∈ (normalize key t).cols) :
    ∀ x ∈ getColCells (normalize key t) c, x ≠ Cell.null ∧ ∃ s, x = Cell.str s := by
  have hwfG : (genericSteps t).WF := by
    rw [genericSteps_eq]
    exact WF_applyMOps _ hwf
  have hG : ∀ x ∈ getColCells (genericSteps t) c, ∃ s, x = Cell.str s :=
    strCol_genericSteps hwf hc hmem
  suffices hstr : ∀ x ∈ getColCells (normalize key t) c, ∃ s, x = Cell.str s by
    intro x hx
    obtain ⟨s, rfl⟩ := hstr x hx
    exact ⟨fun he => Cell.noConfusion he, s, rfl⟩
  by_cases h1 : key = keyFfs
  · subst h1
    rw [normalize_ffs]
    unfold ffsSteps
    exact strCol_mapCol_pres
      (WF_mapCol _ _ (WF_mapCol _ _ (WF_mapCol _ _ (WF_mapCol _ _ (WF_mapCol _ _ hwfG)))))
      (Or.inl (by rcases hc with rfl | rfl <;> decide))
      (strCol_mapCol_pres
        (WF_mapCol _ _ (WF_mapCol _ _ (WF_mapCol _ _ (WF_mapCol _ _ hwfG))))
        (Or.inl (by rcases hc with rfl | rfl <;> decide))
        (strCol_mapCol_pres (WF_mapCol _ _ (WF_mapCol _ _ (WF_mapCol _ _ hwfG)))
          (Or.inl (by rcases hc with rfl | rfl <;> decide))
          (strCol_mapCol_pres (WF_mapCol _ _ (WF_mapCol _ _ hwfG)) (Or.inr rfl)
            (strCol_mapCol_pres (WF_mapCol _ _ hwfG) (Or.inr rfl)
              (strCol_mapCol_pres hwfG (Or.inr rfl) hG)))))
  by_cases h2 : key = keyAcs
  · subst h2
    rw [normalize_acs] at hout ⊢
    exact strCol_acsSteps hwfG hc hout hG
  by_cases h3 : key = keyFoster
  · exact absurd h3 hfoster
  by_cases h4 : key = keySud
  · subst h4
    rw [normalize_sud]
    have hSC : ∀ x ∈ getColCells (sudCommon (genericSteps t)) c, ∃ s, x = Cell.str s := by
      unfold sudCommon
      exact strCol_mapCol_pres (WF_mapCol _ _ (WF_mapCol _ _ (WF_mapCol _ _ hwfG)))
        (Or.inr rfl)
        (strCol_mapCol_pres (WF_mapCol _ _ (WF_mapCol _ _ hwfG)) (Or.inr rfl)
          (strCol_mapCol_pres (WF_mapCol _ _ hwfG)
            (Or.inl (by rcases hc with rfl | rfl <;> decide))
            (strCol_mapCol_pres hwfG
              (Or.inl (by rcases hc with rfl | rfl <;> decide)) hG)))
    have hwfSC : (sudCommon (genericSteps t)).WF := by
      rw [sudCommon_eq]
      exact WF_applyMOps _ hwfG
    unfold sudDerive
    exact strCol_deriveCol_pres (WF_deriveCol _ _ _ _ (WF_deriveCol _ _ _ _ hwfSC))
      (by rcases hc with rfl | rfl <;> decide)
      (strCol_deriveCol_pres (WF_deriveCol _ _ _ _ hwfSC)
        (by rcases hc with rfl | rfl <;> decide)
        (strCol_deriveCol_pres hwfSC
          (by rcases hc with rfl | rfl <;> decide) hSC))
  by_cases h5 : key = keySudGeo
  · subst h5
    rw [normalize_sudGeo]
    unfold sudCommon
    exact strCol_mapCol_pres (WF_mapCol _ _ (WF_mapCol _ _ (WF_mapCol _ _ hwfG)))
      (Or.inr rfl)
      (strCol_mapCol_pres (WF_mapCol _ _ (WF_mapCol _ _ hwfG)) (Or.inr rfl)
        (strCol_mapCol_pres (WF_mapCol _ _ hwfG)
          (Or.inl (by rcases hc with rfl | rfl <;> decide))
          (strCol_mapCol_pres hwfG
            (Or.inl (by rcases hc with rfl | rfl <;> decide)) hG)))
  by_cases h6 : key = keyCoreSet
  · subst h6
    rw [normalize_core]
    unfold coreSetSteps
    exact strCol_mapCol_pres (WF_mapCol _ _ (WF_mapCol _ _ hwfG))
      (Or.inl (by rcases hc with rfl | rfl <;> decide))
      (strCol_mapCol_pres (WF_mapCol _ _ hwfG)
        (Or.inl (by rcases hc with rfl | rfl <;> decide))
        (strCol_mapCol_pres hwfG
          (Or.inl (by rcases hc with rfl | rfl <;> decide)) hG))
  by_cases h7 : key = keyMatAnnual
  · subst h7
    rw [normalize_matA]
    unfold matSteps
    exact strCol_mapCol_pres (WF_mapCol _ _ hwfG)
      (Or.inl (by rcases hc with rfl | rfl <;> decide))
      (strCol_mapCol_pres hwfG
        (Or.inl (by rcases hc with rfl | rfl <;> decide)) hG)
  by_cases h8 : key = keyMatQuarterly
  · subst h8
    rw [normalize_matQ]
    unfold matSteps
    exact strCol_mapCol_pres (WF_mapCol _ _ hwfG)
      (Or.inl (by rcases hc with rfl | rfl <;> decide))
      (strCol_mapCol_pres hwfG
        (Or.inl (by rcases hc with rfl | rfl <;> decide)) hG)
  rw [normalize_default t h1 h2 h3 h4 h5 h6 h7 h8]
  exact hG

/-- C10 witness: a null CountyName cell becomes the non-null string "Nan"
under the sud_recovery_facilities normalizer. -/
theorem C10_county_witness :
    ((⟨[colCountyName], [[Cell.null]]⟩ : Table)).WF
    ∧ keySud ≠ keyFoster
    ∧ (colCountyName = colCounty ∨ colCountyName = colCountyName)
    ∧ colCountyName ∈ ((⟨[colCountyName], [[Cell.null]]⟩ : Table)).cols
    ∧ colCountyName ∈ (normalize keySud ⟨[colCountyName], [[Cell.null]]⟩).cols
    ∧ ∀ x ∈ getColCells (normalize keySud ⟨[colCountyName], [[Cell.null]]⟩) colCountyName,
        x ≠ Cell.null ∧ ∃ s, x = Cell.str s :=
  ⟨by decide, by decide, Or.inr rfl, by decide, by decide,
   C10_county_amended keySud ⟨[colCountyName], [[Cell.null]]⟩ colCountyName
     (by decide) (by decide) (Or.inr rfl) (by decide) (by decide)⟩
